import Mathlib

/-! # Clipping core of the ComputerGraphics scenes

A shallow embedding of the two clipping algorithms of the repository:

* Cohen–Sutherland line clipping (`computeOutCode`, `cohenSutherlandClip`,
  from `classroom.CPP` and `textclip.cpp`, where the two functions are
  textually the same), and
* Sutherland–Hodgman polygon clipping (`clipLeft`, `clipRight`, `clipBottom`,
  `clipTop`, `sutherlandHodgmanClip`, from `playground.cpp`).

Coordinates are rationals: every finite `float` is a rational, comparisons of
floats are exact, and the arithmetic is carried out exactly (no rounding).
-/

namespace Clipping

/-! ## Cohen–Sutherland: region codes and board constants -/

/-- Board rectangle, `const float boardXmin = 100`. -/
def boardXmin : ℚ := 100
/-- Board rectangle, `boardXmax = 400`. -/
def boardXmax : ℚ := 400
/-- Board rectangle, `const float boardYmin = 300`. -/
def boardYmin : ℚ := 300
/-- Board rectangle, `boardYmax = 450`. -/
def boardYmax : ℚ := 450

/-- Region code `0000`. -/
def INSIDE : Nat := 0
/-- Region code `0001`. -/
def LEFT : Nat := 1
/-- Region code `0010`. -/
def RIGHT : Nat := 2
/-- Region code `0100`. -/
def BOTTOM : Nat := 4
/-- Region code `1000`. -/
def TOP : Nat := 8

/-- Region code of the point `(x, y)`: `code |= LEFT` if `x < xmin`, else
`code |= RIGHT` if `x > xmax`; then `code |= BOTTOM` if `y < ymin`, else
`code |= TOP` if `y > ymax`. -/
def computeOutCode (x y xmin xmax ymin ymax : ℚ) : Nat :=
  let code := INSIDE
  let code := if x < xmin then code ||| LEFT
              else if x > xmax then code ||| RIGHT else code
  let code := if y < ymin then code ||| BOTTOM
              else if y > ymax then code ||| TOP else code
  code

/-- The variables of `cohenSutherlandClip` that the loop reads and writes: the
two endpoints (reference parameters) and the two region codes. -/
structure ClipState where
  x0 : ℚ
  y0 : ℚ
  x1 : ℚ
  y1 : ℚ
  code0 : Nat
  code1 : Nat
  deriving DecidableEq

/-- The `outCode` a loop iteration works on: `code0 ? code0 : code1`. -/
def selectOutCode (s : ClipState) : Nat :=
  if s.code0 ≠ 0 then s.code0 else s.code1

/-- The intersection point `(x, y)` computed by one loop iteration, the four
branches tested in the order TOP, BOTTOM, RIGHT, LEFT.  The formulas use the
board constants, as the source does, not the rectangle passed as argument.
When no branch is taken the source leaves `x`, `y` uninitialised; that case
needs `outCode` free of all four bits and is given the value `(0, 0)` here. -/
def intersection (s : ClipState) (outCode : Nat) : ℚ × ℚ :=
  if outCode &&& TOP ≠ 0 then
    (s.x0 + (s.x1 - s.x0) * (boardYmax - s.y0) / (s.y1 - s.y0), boardYmax)
  else if outCode &&& BOTTOM ≠ 0 then
    (s.x0 + (s.x1 - s.x0) * (boardYmin - s.y0) / (s.y1 - s.y0), boardYmin)
  else if outCode &&& RIGHT ≠ 0 then
    (boardXmax, s.y0 + (s.y1 - s.y0) * (boardXmax - s.x0) / (s.x1 - s.x0))
  else if outCode &&& LEFT ≠ 0 then
    (boardXmin, s.y0 + (s.y1 - s.y0) * (boardXmin - s.x0) / (s.x1 - s.x0))
  else (0, 0)

/-- The divisor of the formula that `intersection` evaluates: `y1 - y0` in the
TOP and BOTTOM branches, `x1 - x0` in the RIGHT and LEFT branches. -/
def divisor (s : ClipState) (outCode : Nat) : ℚ :=
  if outCode &&& TOP ≠ 0 then s.y1 - s.y0
  else if outCode &&& BOTTOM ≠ 0 then s.y1 - s.y0
  else s.x1 - s.x0

/-- The `else` branch of the loop body: compute the intersection for the
selected code, then overwrite the endpoint whose code is the selected one
(`outCode == code0` decides) and recompute that endpoint's code with the
rectangle passed as argument. -/
def clipIter (xmin xmax ymin ymax : ℚ) (s : ClipState) : ClipState :=
  let outCode := selectOutCode s
  let p := intersection s outCode
  if outCode = s.code0 then
    { s with x0 := p.1, y0 := p.2,
             code0 := computeOutCode p.1 p.2 xmin xmax ymin ymax }
  else
    { s with x1 := p.1, y1 := p.2,
             code1 := computeOutCode p.1 p.2 xmin xmax ymin ymax }

/-- What `cohenSutherlandClip` hands back: the returned flag, the endpoints as
left in the reference parameters, and (instrumentation, not in the source) the
number of loop iterations that replaced an endpoint. -/
structure ClipResult where
  accept : Bool
  x0 : ℚ
  y0 : ℚ
  x1 : ℚ
  y1 : ℚ
  iters : Nat
  deriving DecidableEq

/-- The `while (true)` loop.  `fuel` bounds the number of times the loop test
is entered; `none` means the fuel ran out before a `break`.  `k` counts the
iterations that have replaced an endpoint so far. -/
def clipLoop (xmin xmax ymin ymax : ℚ) : Nat → Nat → ClipState → Option ClipResult
  | 0, _, _ => none
  | fuel + 1, k, s =>
    if (s.code0 ||| s.code1) = 0 then
      some ⟨true, s.x0, s.y0, s.x1, s.y1, k⟩
    else if (s.code0 &&& s.code1) ≠ 0 then
      some ⟨false, s.x0, s.y0, s.x1, s.y1, k⟩
    else
      clipLoop xmin xmax ymin ymax fuel (k + 1) (clipIter xmin xmax ymin ymax s)

/-- The state on entry to the loop: both codes computed from the arguments. -/
def initState (x0 y0 x1 y1 xmin xmax ymin ymax : ℚ) : ClipState :=
  ⟨x0, y0, x1, y1, computeOutCode x0 y0 xmin xmax ymin ymax,
    computeOutCode x1 y1 xmin xmax ymin ymax⟩

/-- Cohen–Sutherland line clipping of the segment `(x0,y0)-(x1,y1)`. -/
def cohenSutherlandClip (fuel : Nat) (x0 y0 x1 y1 xmin xmax ymin ymax : ℚ) :
    Option ClipResult :=
  clipLoop xmin xmax ymin ymax fuel 0 (initState x0 y0 x1 y1 xmin xmax ymin ymax)

/-! ## Sutherland–Hodgman polygon clipping -/

/-- A 2D point, `struct Point { float x, y; }`. -/
structure Point where
  x : ℚ
  y : ℚ
  deriving DecidableEq

/-- Clip against the left boundary `x >= xMin`: for every index `i`, with
`curr = poly[i]` and `prev = poly[(i + n - 1) % n]`, push `curr`, the
intersection, or the intersection followed by `curr`. -/
def clipLeft (poly : List Point) (xMin : ℚ) : List Point :=
  let n := poly.length
  (List.range n).foldl (fun result i =>
    let curr := poly.getD i ⟨0, 0⟩
    let prev := poly.getD ((i + n - 1) % n) ⟨0, 0⟩
    let currInside := decide (curr.x ≥ xMin)
    let prevInside := decide (prev.x ≥ xMin)
    if prevInside && currInside then
      result ++ [curr]
    else if prevInside && !currInside then
      let t := (xMin - prev.x) / (curr.x - prev.x)
      let inter : Point := ⟨xMin, prev.y + t * (curr.y - prev.y)⟩
      result ++ [inter]
    else if !prevInside && currInside then
      let t := (xMin - prev.x) / (curr.x - prev.x)
      let inter : Point := ⟨xMin, prev.y + t * (curr.y - prev.y)⟩
      (result ++ [inter]) ++ [curr]
    else result) []

/-- Clip against the right boundary `x <= xMax`. -/
def clipRight (poly : List Point) (xMax : ℚ) : List Point :=
  let n := poly.length
  (List.range n).foldl (fun result i =>
    let curr := poly.getD i ⟨0, 0⟩
    let prev := poly.getD ((i + n - 1) % n) ⟨0, 0⟩
    let currInside := decide (curr.x ≤ xMax)
    let prevInside := decide (prev.x ≤ xMax)
    if prevInside && currInside then
      result ++ [curr]
    else if prevInside && !currInside then
      let t := (xMax - prev.x) / (curr.x - prev.x)
      let inter : Point := ⟨xMax, prev.y + t * (curr.y - prev.y)⟩
      result ++ [inter]
    else if !prevInside && currInside then
      let t := (xMax - prev.x) / (curr.x - prev.x)
      let inter : Point := ⟨xMax, prev.y + t * (curr.y - prev.y)⟩
      (result ++ [inter]) ++ [curr]
    else result) []

/-- Clip against the bottom boundary `y >= yMin`. -/
def clipBottom (poly : List Point) (yMin : ℚ) : List Point :=
  let n := poly.length
  (List.range n).foldl (fun result i =>
    let curr := poly.getD i ⟨0, 0⟩
    let prev := poly.getD ((i + n - 1) % n) ⟨0, 0⟩
    let currInside := decide (curr.y ≥ yMin)
    let prevInside := decide (prev.y ≥ yMin)
    if prevInside && currInside then
      result ++ [curr]
    else if prevInside && !currInside then
      let t := (yMin - prev.y) / (curr.y - prev.y)
      let inter : Point := ⟨prev.x + t * (curr.x - prev.x), yMin⟩
      result ++ [inter]
    else if !prevInside && currInside then
      let t := (yMin - prev.y) / (curr.y - prev.y)
      let inter : Point := ⟨prev.x + t * (curr.x - prev.x), yMin⟩
      (result ++ [inter]) ++ [curr]
    else result) []

/-- Clip against the top boundary `y <= yMax`. -/
def clipTop (poly : List Point) (yMax : ℚ) : List Point :=
  let n := poly.length
  (List.range n).foldl (fun result i =>
    let curr := poly.getD i ⟨0, 0⟩
    let prev := poly.getD ((i + n - 1) % n) ⟨0, 0⟩
    let currInside := decide (curr.y ≤ yMax)
    let prevInside := decide (prev.y ≤ yMax)
    if prevInside && currInside then
      result ++ [curr]
    else if prevInside && !currInside then
      let t := (yMax - prev.y) / (curr.y - prev.y)
      let inter : Point := ⟨prev.x + t * (curr.x - prev.x), yMax⟩
      result ++ [inter]
    else if !prevInside && currInside then
      let t := (yMax - prev.y) / (curr.y - prev.y)
      let inter : Point := ⟨prev.x + t * (curr.x - prev.x), yMax⟩
      (result ++ [inter]) ++ [curr]
    else result) []

/-- Sutherland–Hodgman clipping: the four passes in the order left, right,
bottom, top, each on the output of the one before. -/
def sutherlandHodgmanClip (poly : List Point) (xMin xMax yMin yMax : ℚ) :
    List Point :=
  let output := clipLeft poly xMin
  let output := clipRight output xMax
  let output := clipBottom output yMin
  let output := clipTop output yMax
  output

/-! ## Specification-level notions -/

/-- The point `(x, y)` lies in the closed rectangle `[xmin,xmax] × [ymin,ymax]`. -/
def insideRect (x y xmin xmax ymin ymax : ℚ) : Prop :=
  xmin ≤ x ∧ x ≤ xmax ∧ ymin ≤ y ∧ y ≤ ymax

instance (x y xmin xmax ymin ymax : ℚ) : Decidable (insideRect x y xmin xmax ymin ymax) := by
  unfold insideRect
  infer_instance

/-- Some point of the closed segment from `(x0,y0)` to `(x1,y1)` lies in the
closed rectangle. -/
def segmentMeetsRect (x0 y0 x1 y1 xmin xmax ymin ymax : ℚ) : Prop :=
  ∃ t : ℚ, 0 ≤ t ∧ t ≤ 1 ∧
    insideRect (x0 + t * (x1 - x0)) (y0 + t * (y1 - y0)) xmin xmax ymin ymax

/-- Loop invariant of `cohenSutherlandClip`: each code variable is the region
code of its endpoint. -/
def CodesOk (xmin xmax ymin ymax : ℚ) (s : ClipState) : Prop :=
  s.code0 = computeOutCode s.x0 s.y0 xmin xmax ymin ymax ∧
  s.code1 = computeOutCode s.x1 s.y1 xmin xmax ymin ymax

/-- Number of axes (0, 1 or 2) on which `(x, y)` is outside the rectangle. -/
def violations (x y xmin xmax ymin ymax : ℚ) : Nat :=
  (if x < xmin ∨ x > xmax then 1 else 0) + (if y < ymin ∨ y > ymax then 1 else 0)

/-- Termination measure of the loop: violated axes of both endpoints. -/
def clipMeasure (xmin xmax ymin ymax : ℚ) (s : ClipState) : Nat :=
  violations s.x0 s.y0 xmin xmax ymin ymax + violations s.x1 s.y1 xmin xmax ymin ymax

/-- What one replacement achieves, from the state `s` before to the state `s'`
after it: the codes still describe the endpoints; either the new codes share a
bit or fewer axes are violated; and one endpoint has moved to the point of
parameter `τ ∈ [0,1]` of the segment of `s`, every point of that segment inside
the rectangle being on the part that is kept. -/
def StepSpec (xmin xmax ymin ymax : ℚ) (s s' : ClipState) : Prop :=
  CodesOk xmin xmax ymin ymax s' ∧
  ((s'.code0 &&& s'.code1) ≠ 0 ∨
    clipMeasure xmin xmax ymin ymax s' < clipMeasure xmin xmax ymin ymax s) ∧
  ∃ τ : ℚ, 0 ≤ τ ∧ τ ≤ 1 ∧
    ((s'.x0 = s.x0 + τ * (s.x1 - s.x0) ∧ s'.y0 = s.y0 + τ * (s.y1 - s.y0) ∧
        s'.x1 = s.x1 ∧ s'.y1 = s.y1 ∧
        ∀ t : ℚ, 0 ≤ t → t ≤ 1 →
          insideRect (s.x0 + t * (s.x1 - s.x0)) (s.y0 + t * (s.y1 - s.y0))
            xmin xmax ymin ymax → τ ≤ t) ∨
     (s'.x0 = s.x0 ∧ s'.y0 = s.y0 ∧
        s'.x1 = s.x0 + τ * (s.x1 - s.x0) ∧ s'.y1 = s.y0 + τ * (s.y1 - s.y0) ∧
        ∀ t : ℚ, 0 ≤ t → t ≤ 1 →
          insideRect (s.x0 + t * (s.x1 - s.x0)) (s.y0 + t * (s.y1 - s.y0))
            xmin xmax ymin ymax → t ≤ τ))

/-- The vertices one step of a single-edge pass pushes for the pair
`(prev, curr)`, for an edge given by its inside test and its intersection. -/
def emitEdge (ins : Point → Bool) (inter : Point → Point → Point)
    (prev curr : Point) : List Point :=
  if ins prev && ins curr then [curr]
  else if ins prev && !ins curr then [inter prev curr]
  else if !ins prev && ins curr then [inter prev curr, curr]
  else []

/-- A single-edge pass written once for all four edges; `clipLeft`, `clipRight`,
`clipBottom` and `clipTop` are shown to be instances of it. -/
def clipEdge (ins : Point → Bool) (inter : Point → Point → Point)
    (poly : List Point) : List Point :=
  (List.range poly.length).foldl (fun result i =>
    result ++ emitEdge ins inter
      (poly.getD ((i + poly.length - 1) % poly.length) ⟨0, 0⟩) (poly.getD i ⟨0, 0⟩)) []

/-- Intersection computed by `clipLeft` and `clipRight` for the bound `c`. -/
def interX (c : ℚ) (prev curr : Point) : Point :=
  ⟨c, prev.y + (c - prev.x) / (curr.x - prev.x) * (curr.y - prev.y)⟩

/-- Intersection computed by `clipBottom` and `clipTop` for the bound `c`. -/
def interY (c : ℚ) (prev curr : Point) : Point :=
  ⟨prev.x + (c - prev.y) / (curr.y - prev.y) * (curr.x - prev.x), c⟩

/-- The loop variables after `n` executions of the loop body, had the loop
not left before: `clipIter` applied `n` times to the state on entry.  The
`n`-th iteration of a run that lasts that long works on `loopState … n`. -/
def loopState (x0 y0 x1 y1 xmin xmax ymin ymax : ℚ) (n : Nat) : ClipState :=
  (clipIter xmin xmax ymin ymax)^[n] (initState x0 y0 x1 y1 xmin xmax ymin ymax)

/-- The code `new` has none of the four bits that `old` lacks, and lacks one
of the four bits that `old` has. -/
def ClearsBit (old new : Nat) : Prop :=
  (∀ b ∈ [LEFT, RIGHT, BOTTOM, TOP], new &&& b ≠ 0 → old &&& b ≠ 0) ∧
  (∃ b ∈ [LEFT, RIGHT, BOTTOM, TOP], old &&& b ≠ 0 ∧ new &&& b = 0)

instance (old new : Nat) : Decidable (ClearsBit old new) :=
  inferInstanceAs (Decidable
    ((∀ b ∈ [LEFT, RIGHT, BOTTOM, TOP], new &&& b ≠ 0 → old &&& b ≠ 0) ∧
     (∃ b ∈ [LEFT, RIGHT, BOTTOM, TOP], old &&& b ≠ 0 ∧ new &&& b = 0)))

/-- The code, after the iteration, of the endpoint that the iteration from `s`
replaces: `code0` when `outCode == code0`, else `code1`. -/
def replacedCode (xmin xmax ymin ymax : ℚ) (s : ClipState) : Nat :=
  if selectOutCode s = s.code0 then (clipIter xmin xmax ymin ymax s).code0
  else (clipIter xmin xmax ymin ymax s).code1

/-- The code of the endpoint that the iteration from `s` leaves alone. -/
def keptCode (s : ClipState) : Nat :=
  if selectOutCode s = s.code0 then s.code1 else s.code0

/-! ## Region codes: what each bit means -/

theorem code_left_iff (x y xmin xmax ymin ymax : ℚ) :
    computeOutCode x y xmin xmax ymin ymax &&& LEFT ≠ 0 ↔ x < xmin := by
  unfold computeOutCode
  simp only [INSIDE, LEFT, RIGHT, BOTTOM, TOP]
  split_ifs <;> first
    | exact iff_of_true (by decide) (by simp_all)
    | exact iff_of_false (by decide) (by simp_all)

theorem code_right_iff (x y xmin xmax ymin ymax : ℚ) :
    computeOutCode x y xmin xmax ymin ymax &&& RIGHT ≠ 0 ↔ ¬ x < xmin ∧ x > xmax := by
  unfold computeOutCode
  simp only [INSIDE, LEFT, RIGHT, BOTTOM, TOP]
  split_ifs <;> first
    | exact iff_of_true (by decide) (by simp_all)
    | exact iff_of_false (by decide) (by simp_all)

theorem code_bottom_iff (x y xmin xmax ymin ymax : ℚ) :
    computeOutCode x y xmin xmax ymin ymax &&& BOTTOM ≠ 0 ↔ y < ymin := by
  unfold computeOutCode
  simp only [INSIDE, LEFT, RIGHT, BOTTOM, TOP]
  split_ifs <;> first
    | exact iff_of_true (by decide) (by simp_all)
    | exact iff_of_false (by decide) (by simp_all)

theorem code_top_iff (x y xmin xmax ymin ymax : ℚ) :
    computeOutCode x y xmin xmax ymin ymax &&& TOP ≠ 0 ↔ ¬ y < ymin ∧ y > ymax := by
  unfold computeOutCode
  simp only [INSIDE, LEFT, RIGHT, BOTTOM, TOP]
  split_ifs <;> first
    | exact iff_of_true (by decide) (by simp_all)
    | exact iff_of_false (by decide) (by simp_all)

theorem code_eq_zero_iff (x y xmin xmax ymin ymax : ℚ) :
    computeOutCode x y xmin xmax ymin ymax = 0 ↔ insideRect x y xmin xmax ymin ymax := by
  unfold computeOutCode insideRect
  simp only [INSIDE, LEFT, RIGHT, BOTTOM, TOP]
  split_ifs <;> first
    | exact iff_of_true (by decide) (by simp_all)
    | exact iff_of_false (by decide) (by simp_all)

theorem code_or_eq_zero_iff (x y x' y' xmin xmax ymin ymax : ℚ) :
    computeOutCode x y xmin xmax ymin ymax ||| computeOutCode x' y' xmin xmax ymin ymax = 0 ↔
      computeOutCode x y xmin xmax ymin ymax = 0 ∧
        computeOutCode x' y' xmin xmax ymin ymax = 0 := by
  unfold computeOutCode
  simp only [INSIDE, LEFT, RIGHT, BOTTOM, TOP]
  split_ifs <;> decide

theorem code_and_ne_zero_iff (x y x' y' xmin xmax ymin ymax : ℚ) :
    computeOutCode x y xmin xmax ymin ymax &&& computeOutCode x' y' xmin xmax ymin ymax ≠ 0 ↔
      (x < xmin ∧ x' < xmin) ∨ ((¬ x < xmin ∧ x > xmax) ∧ (¬ x' < xmin ∧ x' > xmax)) ∨
      (y < ymin ∧ y' < ymin) ∨ ((¬ y < ymin ∧ y > ymax) ∧ (¬ y' < ymin ∧ y' > ymax)) := by
  unfold computeOutCode
  simp only [INSIDE, LEFT, RIGHT, BOTTOM, TOP]
  split_ifs <;> first
    | exact iff_of_true (by decide) (by simp_all)
    | exact iff_of_false (by decide) (by simp_all)

/-! ## The loop: unfolding and fuel -/

theorem clipLoop_accept (xmin xmax ymin ymax : ℚ) (fuel k : Nat) (s : ClipState)
    (h : (s.code0 ||| s.code1) = 0) :
    clipLoop xmin xmax ymin ymax (fuel + 1) k s = some ⟨true, s.x0, s.y0, s.x1, s.y1, k⟩ := by
  simp [clipLoop, h]

theorem clipLoop_reject (xmin xmax ymin ymax : ℚ) (fuel k : Nat) (s : ClipState)
    (h : (s.code0 ||| s.code1) ≠ 0) (h' : (s.code0 &&& s.code1) ≠ 0) :
    clipLoop xmin xmax ymin ymax (fuel + 1) k s = some ⟨false, s.x0, s.y0, s.x1, s.y1, k⟩ := by
  simp [clipLoop, h, h']

theorem clipLoop_iter (xmin xmax ymin ymax : ℚ) (fuel k : Nat) (s : ClipState)
    (h : (s.code0 ||| s.code1) ≠ 0) (h' : (s.code0 &&& s.code1) = 0) :
    clipLoop xmin xmax ymin ymax (fuel + 1) k s =
      clipLoop xmin xmax ymin ymax fuel (k + 1) (clipIter xmin xmax ymin ymax s) := by
  simp [clipLoop, h, h']

/-- More fuel never changes a result already reached. -/
theorem clipLoop_fuel_mono (xmin xmax ymin ymax : ℚ) (fuel : Nat) :
    ∀ (k : Nat) (s : ClipState) (r : ClipResult) (extra : Nat),
      clipLoop xmin xmax ymin ymax fuel k s = some r →
      clipLoop xmin xmax ymin ymax (fuel + extra) k s = some r := by
  induction fuel with
  | zero => intro k s r extra h; simp [clipLoop] at h
  | succ n ih =>
    intro k s r extra h
    have e : n + 1 + extra = (n + extra) + 1 := by omega
    rw [e]
    by_cases h1 : (s.code0 ||| s.code1) = 0
    · rw [clipLoop_accept _ _ _ _ _ _ _ h1] at h ⊢
      exact h
    · by_cases h2 : (s.code0 &&& s.code1) = 0
      · rw [clipLoop_iter _ _ _ _ _ _ _ h1 h2] at h ⊢
        exact ih _ _ _ _ h
      · rw [clipLoop_reject _ _ _ _ _ _ _ h1 h2] at h ⊢
        exact h

/-- Results do not depend on the fuel: two runs that both finish agree. -/
theorem clipLoop_fuel_unique (xmin xmax ymin ymax : ℚ) (f g k : Nat) (s : ClipState)
    (r r' : ClipResult) (h : clipLoop xmin xmax ymin ymax f k s = some r)
    (h' : clipLoop xmin xmax ymin ymax g k s = some r') : r = r' := by
  have a := clipLoop_fuel_mono xmin xmax ymin ymax f k s r g h
  have b := clipLoop_fuel_mono xmin xmax ymin ymax g k s r' f h'
  rw [Nat.add_comm] at b
  rw [a] at b
  exact Option.some.inj b

/-! ## Cohen–Sutherland: trivial accept and trivial reject -/

/-- C3: for every rectangle and every segment whose two endpoints both lie in
the closed rectangle, `cohenSutherlandClip` returns accepted = true and leaves
both endpoints exactly as given (no endpoint is replaced). -/
theorem cohenSutherlandClip_inside_unchanged (fuel : Nat)
    (x0 y0 x1 y1 xmin xmax ymin ymax : ℚ)
    (h0 : xmin ≤ x0 ∧ x0 ≤ xmax ∧ ymin ≤ y0 ∧ y0 ≤ ymax)
    (h1 : xmin ≤ x1 ∧ x1 ≤ xmax ∧ ymin ≤ y1 ∧ y1 ≤ ymax) :
    cohenSutherlandClip (fuel + 1) x0 y0 x1 y1 xmin xmax ymin ymax =
      some ⟨true, x0, y0, x1, y1, 0⟩ := by
  have c0 : computeOutCode x0 y0 xmin xmax ymin ymax = 0 :=
    (code_eq_zero_iff x0 y0 xmin xmax ymin ymax).mpr h0
  have c1 : computeOutCode x1 y1 xmin xmax ymin ymax = 0 :=
    (code_eq_zero_iff x1 y1 xmin xmax ymin ymax).mpr h1
  unfold cohenSutherlandClip
  rw [clipLoop_accept]
  · rfl
  · simp [initState, c0, c1]

theorem cohenSutherlandClip_inside_unchanged_witness :
    ((100 : ℚ) ≤ 150 ∧ (150 : ℚ) ≤ 400 ∧ (300 : ℚ) ≤ 350 ∧ (350 : ℚ) ≤ 450) ∧
    ((100 : ℚ) ≤ 390 ∧ (390 : ℚ) ≤ 400 ∧ (300 : ℚ) ≤ 440 ∧ (440 : ℚ) ≤ 450) ∧
    cohenSutherlandClip 1 150 350 390 440 100 400 300 450 =
      some ⟨true, 150, 350, 390, 440, 0⟩ :=
  ⟨by norm_num, by norm_num,
    cohenSutherlandClip_inside_unchanged 0 150 350 390 440 100 400 300 450
      (by norm_num) (by norm_num)⟩

/-- C1 (evaluation at a failing input): the rectangle passed is
`xmin = 0, xmax = 500, ymin = 0, ymax = 500`; the endpoint `(150,200)` is inside
and `(-50,200)` violates only the left side.  The segment meets the line
`x = xmin = 0` at `(0,200)`, but the code returns the endpoint `(100,200)`, on
the line `x = boardXmin`. -/
theorem cohenSutherlandClip_uses_board_not_argument :
    computeOutCode 150 200 0 500 0 500 = INSIDE ∧
    computeOutCode (-50) 200 0 500 0 500 = LEFT ∧
    cohenSutherlandClip 2 (-50) 200 150 200 0 500 0 500 =
      some ⟨true, 100, 200, 150, 200, 1⟩ := by
  decide!

/-- With a rectangle other than the board the loop need not end: for
`xmin = 0, xmax = 10, ymin = 0, ymax = 10` and the segment `(-5,5)-(5,5)` the
first endpoint is moved to `x = boardXmin = 100`, then to `x = boardXmax = 400`,
and stays there with the code RIGHT for ever. -/
theorem cohenSutherlandClip_off_board_diverges (fuel : Nat) :
    cohenSutherlandClip fuel (-5) 5 5 5 0 10 0 10 = none := by
  have fix : ∀ (n k : Nat), clipLoop 0 10 0 10 n k ⟨400, 5, 5, 5, 2, 0⟩ = none := by
    intro n
    induction n with
    | zero => intro k; rfl
    | succ m ih =>
      intro k
      rw [clipLoop_iter _ _ _ _ _ _ _ (by decide) (by decide)]
      have e : clipIter 0 10 0 10 ⟨400, 5, 5, 5, 2, 0⟩ = ⟨400, 5, 5, 5, 2, 0⟩ := by decide!
      rw [e]
      exact ih _
  match fuel with
  | 0 => rfl
  | 1 => decide!
  | 2 => decide!
  | n + 3 =>
    unfold cohenSutherlandClip
    have e0 : initState (-5) 5 5 5 0 10 0 10 = ⟨-5, 5, 5, 5, 1, 0⟩ := by decide!
    rw [e0, clipLoop_iter _ _ _ _ _ _ _ (by decide) (by decide)]
    have e1 : clipIter 0 10 0 10 ⟨-5, 5, 5, 5, 1, 0⟩ = ⟨100, 5, 5, 5, 2, 0⟩ := by decide!
    rw [e1, clipLoop_iter _ _ _ _ _ _ _ (by decide) (by decide)]
    have e2 : clipIter 0 10 0 10 ⟨100, 5, 5, 5, 2, 0⟩ = ⟨400, 5, 5, 5, 2, 0⟩ := by decide!
    rw [e2]
    exact fix _ _

/-- C10 (counterexample): against the board rectangle the segment
`(-500,500)-(1000,250)` is accepted as `(100,400)-(400,350)` after four
iterations that replace an endpoint (TOP and LEFT for the first endpoint,
BOTTOM and RIGHT for the second), so no run ends within two. -/
theorem cohenSutherlandClip_needs_four_iterations :
    ((100 : ℚ) ≤ 400 ∧ (300 : ℚ) ≤ 450) ∧
    cohenSutherlandClip 5 (-500) 500 1000 250 100 400 300 450 =
      some ⟨true, 100, 400, 400, 350, 4⟩ ∧
    ¬ ∃ fuel r, cohenSutherlandClip fuel (-500) 500 1000 250 100 400 300 450 = some r ∧
        r.iters ≤ 2 := by
  have e : cohenSutherlandClip 5 (-500) 500 1000 250 100 400 300 450 =
      some ⟨true, 100, 400, 400, 350, 4⟩ := by decide!
  refine ⟨⟨by norm_num, by norm_num⟩, e, ?_⟩
  rintro ⟨fuel, r, hr, hle⟩
  have := clipLoop_fuel_unique _ _ _ _ _ _ _ _ _ _ hr e
  rw [this] at hle
  exact absurd hle (by decide)

/-! ## Geometry of one intersection

The intersection formulas of the loop are the point of parameter
`τ = (c - u0) / (u1 - u0)` on the line through the two endpoints, where `u` is
the coordinate being clipped and `c` the bound. -/

/-- First endpoint above the bound, second endpoint not above it. -/
theorem param_first_above (u0 u1 c : ℚ) (h0 : c < u0) (h1 : u1 ≤ c) :
    0 ≤ (c - u0) / (u1 - u0) ∧ (c - u0) / (u1 - u0) ≤ 1 ∧
    u0 + (c - u0) / (u1 - u0) * (u1 - u0) = c ∧
    ∀ t : ℚ, u0 + t * (u1 - u0) ≤ c → (c - u0) / (u1 - u0) ≤ t := by
  have hd : u1 - u0 < 0 := by linarith
  refine ⟨?_, ?_, ?_, ?_⟩
  · exact div_nonneg_of_nonpos (by linarith) hd.le
  · rw [div_le_one_of_neg hd]; linarith
  · rw [div_mul_cancel₀ _ hd.ne]; ring
  · intro t ht
    rw [div_le_iff_of_neg hd]
    linarith

/-- First endpoint below the bound, second endpoint not below it. -/
theorem param_first_below (u0 u1 c : ℚ) (h0 : u0 < c) (h1 : c ≤ u1) :
    0 ≤ (c - u0) / (u1 - u0) ∧ (c - u0) / (u1 - u0) ≤ 1 ∧
    u0 + (c - u0) / (u1 - u0) * (u1 - u0) = c ∧
    ∀ t : ℚ, c ≤ u0 + t * (u1 - u0) → (c - u0) / (u1 - u0) ≤ t := by
  have hd : 0 < u1 - u0 := by linarith
  refine ⟨?_, ?_, ?_, ?_⟩
  · exact div_nonneg (by linarith) hd.le
  · rw [div_le_one hd]; linarith
  · rw [div_mul_cancel₀ _ hd.ne']; ring
  · intro t ht
    rw [div_le_iff₀ hd]
    linarith

/-- Second endpoint above the bound, first endpoint not above it. -/
theorem param_second_above (u0 u1 c : ℚ) (h0 : u0 ≤ c) (h1 : c < u1) :
    0 ≤ (c - u0) / (u1 - u0) ∧ (c - u0) / (u1 - u0) ≤ 1 ∧
    u0 + (c - u0) / (u1 - u0) * (u1 - u0) = c ∧
    ∀ t : ℚ, u0 + t * (u1 - u0) ≤ c → t ≤ (c - u0) / (u1 - u0) := by
  have hd : 0 < u1 - u0 := by linarith
  refine ⟨?_, ?_, ?_, ?_⟩
  · exact div_nonneg (by linarith) hd.le
  · rw [div_le_one hd]; linarith
  · rw [div_mul_cancel₀ _ hd.ne']; ring
  · intro t ht
    rw [le_div_iff₀ hd]
    linarith

/-- Second endpoint below the bound, first endpoint not below it. -/
theorem param_second_below (u0 u1 c : ℚ) (h0 : c ≤ u0) (h1 : u1 < c) :
    0 ≤ (c - u0) / (u1 - u0) ∧ (c - u0) / (u1 - u0) ≤ 1 ∧
    u0 + (c - u0) / (u1 - u0) * (u1 - u0) = c ∧
    ∀ t : ℚ, c ≤ u0 + t * (u1 - u0) → t ≤ (c - u0) / (u1 - u0) := by
  have hd : u1 - u0 < 0 := by linarith
  refine ⟨?_, ?_, ?_, ?_⟩
  · exact div_nonneg_of_nonpos (by linarith) hd.le
  · rw [div_le_one_of_neg hd]; linarith
  · rw [div_mul_cancel₀ _ hd.ne]; ring
  · intro t ht
    rw [le_div_iff_of_neg hd]
    linarith

/-- A point of parameter `τ ∈ [0,1]` lies between the endpoints. -/
theorem between_of_param (u0 u1 τ : ℚ) (h0 : 0 ≤ τ) (h1 : τ ≤ 1) :
    (u0 ≤ u0 + τ * (u1 - u0) ∧ u0 + τ * (u1 - u0) ≤ u1) ∨
    (u1 ≤ u0 + τ * (u1 - u0) ∧ u0 + τ * (u1 - u0) ≤ u0) := by
  rcases le_total u0 u1 with h | h
  · left
    constructor
    · nlinarith [mul_nonneg h0 (sub_nonneg.mpr h)]
    · nlinarith [mul_nonneg (sub_nonneg.mpr h1) (sub_nonneg.mpr h)]
  · right
    constructor
    · nlinarith [mul_nonneg (sub_nonneg.mpr h1) (sub_nonneg.mpr h)]
    · nlinarith [mul_nonneg h0 (sub_nonneg.mpr h)]

/-! ## Progress of one replacement -/

/-- Replacing an endpoint that violates the `y` range by a point within the `y`
range whose `x` lies between the two endpoints either produces a code that
shares a bit with the other endpoint or lowers the number of violated axes. -/
theorem progress_of_fixed_y (xs ys xo yo xn yn xmin xmax ymin ymax : ℚ)
    (hx : xmin ≤ xmax) (hsel : ys < ymin ∨ ys > ymax) (hnew : ymin ≤ yn ∧ yn ≤ ymax)
    (hb : (xs ≤ xn ∧ xn ≤ xo) ∨ (xo ≤ xn ∧ xn ≤ xs)) :
    computeOutCode xn yn xmin xmax ymin ymax &&& computeOutCode xo yo xmin xmax ymin ymax ≠ 0 ∨
      violations xn yn xmin xmax ymin ymax < violations xs ys xmin xmax ymin ymax := by
  have vn : violations xn yn xmin xmax ymin ymax = (if xn < xmin ∨ xn > xmax then 1 else 0) := by
    unfold violations
    rw [if_neg (by push_neg; exact ⟨hnew.1, hnew.2⟩ : ¬ (yn < ymin ∨ yn > ymax))]
    rfl
  have vs : violations xs ys xmin xmax ymin ymax =
      (if xs < xmin ∨ xs > xmax then 1 else 0) + 1 := by
    unfold violations
    rw [if_pos hsel]
  rw [code_and_ne_zero_iff, vn, vs]
  by_cases hn : xn < xmin ∨ xn > xmax
  · by_cases hs : xs < xmin ∨ xs > xmax
    · right
      rw [if_pos hn, if_pos hs]
      decide
    · left
      push_neg at hs
      rcases hn with hn | hn
      · left
        refine ⟨hn, ?_⟩
        rcases hb with hb | hb <;> linarith
      · right; left
        have ho : xo > xmax := by rcases hb with hb | hb <;> linarith
        exact ⟨⟨by linarith, hn⟩, ⟨by linarith, ho⟩⟩
  · right
    rw [if_neg hn]
    split_ifs <;> decide

/-- Replacing an endpoint that violates the `x` range by a point within the `x`
range whose `y` lies between the two endpoints either produces a code that
shares a bit with the other endpoint or lowers the number of violated axes. -/
theorem progress_of_fixed_x (xs ys xo yo xn yn xmin xmax ymin ymax : ℚ)
    (hy : ymin ≤ ymax) (hsel : xs < xmin ∨ xs > xmax) (hnew : xmin ≤ xn ∧ xn ≤ xmax)
    (hb : (ys ≤ yn ∧ yn ≤ yo) ∨ (yo ≤ yn ∧ yn ≤ ys)) :
    computeOutCode xn yn xmin xmax ymin ymax &&& computeOutCode xo yo xmin xmax ymin ymax ≠ 0 ∨
      violations xn yn xmin xmax ymin ymax < violations xs ys xmin xmax ymin ymax := by
  have vn : violations xn yn xmin xmax ymin ymax = (if yn < ymin ∨ yn > ymax then 1 else 0) := by
    unfold violations
    rw [if_neg (by push_neg; exact ⟨hnew.1, hnew.2⟩ : ¬ (xn < xmin ∨ xn > xmax))]
    simp
  have vs : violations xs ys xmin xmax ymin ymax =
      1 + (if ys < ymin ∨ ys > ymax then 1 else 0) := by
    unfold violations
    rw [if_pos hsel]
  rw [code_and_ne_zero_iff, vn, vs]
  by_cases hn : yn < ymin ∨ yn > ymax
  · by_cases hs : ys < ymin ∨ ys > ymax
    · right
      rw [if_pos hn, if_pos hs]
      decide
    · left
      push_neg at hs
      rcases hn with hn | hn
      · right; right; left
        refine ⟨hn, ?_⟩
        rcases hb with hb | hb <;> linarith
      · right; right; right
        have ho : yo > ymax := by rcases hb with hb | hb <;> linarith
        exact ⟨⟨by linarith, hn⟩, ⟨by linarith, ho⟩⟩
  · right
    rw [if_neg hn]
    split_ifs <;> decide

/-! ## The part cut off never meets the rectangle -/

/-- Moving the first endpoint to the parameter `τ` keeps exactly the points of
parameter at least `τ`. -/
theorem meets_iff_replace_first (x0 y0 x1 y1 τ xmin xmax ymin ymax : ℚ)
    (h0 : 0 ≤ τ) (h1 : τ ≤ 1)
    (hmin : ∀ t : ℚ, 0 ≤ t → t ≤ 1 →
      insideRect (x0 + t * (x1 - x0)) (y0 + t * (y1 - y0)) xmin xmax ymin ymax → τ ≤ t) :
    segmentMeetsRect (x0 + τ * (x1 - x0)) (y0 + τ * (y1 - y0)) x1 y1 xmin xmax ymin ymax ↔
      segmentMeetsRect x0 y0 x1 y1 xmin xmax ymin ymax := by
  constructor
  · rintro ⟨t, ht0, ht1, hin⟩
    refine ⟨τ + t * (1 - τ), ?_, ?_, ?_⟩
    · have := mul_nonneg ht0 (sub_nonneg.mpr h1)
      linarith
    · have := mul_nonneg (sub_nonneg.mpr ht1) (sub_nonneg.mpr h1)
      nlinarith
    · have ex : x0 + (τ + t * (1 - τ)) * (x1 - x0) =
          x0 + τ * (x1 - x0) + t * (x1 - (x0 + τ * (x1 - x0))) := by ring
      have ey : y0 + (τ + t * (1 - τ)) * (y1 - y0) =
          y0 + τ * (y1 - y0) + t * (y1 - (y0 + τ * (y1 - y0))) := by ring
      rw [ex, ey]
      exact hin
  · rintro ⟨t, ht0, ht1, hin⟩
    have hτt := hmin t ht0 ht1 hin
    rcases eq_or_lt_of_le h1 with h | h
    · have ht : t = 1 := by linarith
      subst ht
      subst h
      refine ⟨0, le_refl _, by norm_num, ?_⟩
      have ex : x0 + 1 * (x1 - x0) + 0 * (x1 - (x0 + 1 * (x1 - x0))) = x0 + 1 * (x1 - x0) := by
        ring
      have ey : y0 + 1 * (y1 - y0) + 0 * (y1 - (y0 + 1 * (y1 - y0))) = y0 + 1 * (y1 - y0) := by
        ring
      rw [ex, ey]
      exact hin
    · have hd : 0 < 1 - τ := by linarith
      refine ⟨(t - τ) / (1 - τ), div_nonneg (by linarith) hd.le, ?_, ?_⟩
      · rw [div_le_one hd]; linarith
      · have key : (t - τ) / (1 - τ) * (1 - τ) = t - τ := div_mul_cancel₀ _ hd.ne'
        have ex : x0 + τ * (x1 - x0) + (t - τ) / (1 - τ) * (x1 - (x0 + τ * (x1 - x0))) =
            x0 + t * (x1 - x0) := by
          have : x0 + τ * (x1 - x0) + (t - τ) / (1 - τ) * (x1 - (x0 + τ * (x1 - x0))) =
              x0 + τ * (x1 - x0) + ((t - τ) / (1 - τ) * (1 - τ)) * (x1 - x0) := by ring
          rw [this, key]; ring
        have ey : y0 + τ * (y1 - y0) + (t - τ) / (1 - τ) * (y1 - (y0 + τ * (y1 - y0))) =
            y0 + t * (y1 - y0) := by
          have : y0 + τ * (y1 - y0) + (t - τ) / (1 - τ) * (y1 - (y0 + τ * (y1 - y0))) =
              y0 + τ * (y1 - y0) + ((t - τ) / (1 - τ) * (1 - τ)) * (y1 - y0) := by ring
          rw [this, key]; ring
        rw [ex, ey]
        exact hin

/-- Moving the second endpoint to the parameter `τ` keeps exactly the points of
parameter at most `τ`. -/
theorem meets_iff_replace_second (x0 y0 x1 y1 τ xmin xmax ymin ymax : ℚ)
    (h0 : 0 ≤ τ) (h1 : τ ≤ 1)
    (hmax : ∀ t : ℚ, 0 ≤ t → t ≤ 1 →
      insideRect (x0 + t * (x1 - x0)) (y0 + t * (y1 - y0)) xmin xmax ymin ymax → t ≤ τ) :
    segmentMeetsRect x0 y0 (x0 + τ * (x1 - x0)) (y0 + τ * (y1 - y0)) xmin xmax ymin ymax ↔
      segmentMeetsRect x0 y0 x1 y1 xmin xmax ymin ymax := by
  constructor
  · rintro ⟨t, ht0, ht1, hin⟩
    refine ⟨t * τ, mul_nonneg ht0 h0, ?_, ?_⟩
    · calc t * τ ≤ 1 * 1 := mul_le_mul ht1 h1 h0 (by norm_num)
        _ = 1 := by norm_num
    · have ex : x0 + t * τ * (x1 - x0) = x0 + t * (x0 + τ * (x1 - x0) - x0) := by ring
      have ey : y0 + t * τ * (y1 - y0) = y0 + t * (y0 + τ * (y1 - y0) - y0) := by ring
      rw [ex, ey]
      exact hin
  · rintro ⟨t, ht0, ht1, hin⟩
    have htτ := hmax t ht0 ht1 hin
    rcases eq_or_lt_of_le h0 with h | h
    · have ht : t = 0 := by linarith
      subst ht
      subst h
      refine ⟨0, le_refl _, by norm_num, ?_⟩
      have ex : x0 + 0 * (x0 + 0 * (x1 - x0) - x0) = x0 + 0 * (x1 - x0) := by ring
      have ey : y0 + 0 * (y0 + 0 * (y1 - y0) - y0) = y0 + 0 * (y1 - y0) := by ring
      rw [ex, ey]
      exact hin
    · refine ⟨t / τ, div_nonneg ht0 h.le, ?_, ?_⟩
      · rw [div_le_one h]; exact htτ
      · have key : t / τ * τ = t := div_mul_cancel₀ _ h.ne'
        have ex : x0 + t / τ * (x0 + τ * (x1 - x0) - x0) = x0 + t * (x1 - x0) := by
          have : x0 + t / τ * (x0 + τ * (x1 - x0) - x0) = x0 + (t / τ * τ) * (x1 - x0) := by
            ring
          rw [this, key]
        have ey : y0 + t / τ * (y0 + τ * (y1 - y0) - y0) = y0 + t * (y1 - y0) := by
          have : y0 + t / τ * (y0 + τ * (y1 - y0) - y0) = y0 + (t / τ * τ) * (y1 - y0) := by
            ring
          rw [this, key]
        rw [ex, ey]
        exact hin

/-- Two endpoints that share a region-code bit lie strictly beyond one side,
and so does every point between them. -/
theorem not_meets_of_shared_bit (x0 y0 x1 y1 xmin xmax ymin ymax : ℚ)
    (h : computeOutCode x0 y0 xmin xmax ymin ymax &&&
      computeOutCode x1 y1 xmin xmax ymin ymax ≠ 0) :
    ¬ segmentMeetsRect x0 y0 x1 y1 xmin xmax ymin ymax := by
  rw [code_and_ne_zero_iff] at h
  rintro ⟨t, ht0, ht1, hxl, hxr, hyl, hyr⟩
  have b1 := between_of_param x0 x1 t ht0 ht1
  have b2 := between_of_param y0 y1 t ht0 ht1
  rcases h with ⟨a, b⟩ | ⟨⟨_, a⟩, ⟨_, b⟩⟩ | ⟨a, b⟩ | ⟨⟨_, a⟩, ⟨_, b⟩⟩
  · rcases b1 with c | c <;> linarith
  · rcases b1 with c | c <;> linarith
  · rcases b2 with c | c <;> linarith
  · rcases b2 with c | c <;> linarith

/-! ## One loop iteration against the board rectangle -/

theorem board_x_valid : boardXmin ≤ boardXmax := by
  norm_num [boardXmin, boardXmax]

theorem board_y_valid : boardYmin ≤ boardYmax := by
  norm_num [boardYmin, boardYmax]

/-- A nonzero region code has one of the four bits the loop tests. -/
theorem code_bit_of_ne_zero (x y xmin xmax ymin ymax : ℚ)
    (h : computeOutCode x y xmin xmax ymin ymax ≠ 0)
    (hT : ¬ computeOutCode x y xmin xmax ymin ymax &&& TOP ≠ 0)
    (hB : ¬ computeOutCode x y xmin xmax ymin ymax &&& BOTTOM ≠ 0)
    (hR : ¬ computeOutCode x y xmin xmax ymin ymax &&& RIGHT ≠ 0) :
    computeOutCode x y xmin xmax ymin ymax &&& LEFT ≠ 0 := by
  rw [code_left_iff]
  rw [code_top_iff] at hT
  rw [code_bottom_iff] at hB
  rw [code_right_iff] at hR
  by_contra hL
  apply h
  rw [code_eq_zero_iff]
  push_neg at hT hB hR hL
  exact ⟨hL, hR hL, hB, hT hB⟩

/-- Packaging of a replacement of the first endpoint. -/
theorem stepSpec_first (x0 y0 x1 y1 px py τ xmin xmax ymin ymax : ℚ)
    (h0 : 0 ≤ τ) (h1 : τ ≤ 1)
    (hpx : px = x0 + τ * (x1 - x0)) (hpy : py = y0 + τ * (y1 - y0))
    (hprog : computeOutCode px py xmin xmax ymin ymax &&&
        computeOutCode x1 y1 xmin xmax ymin ymax ≠ 0 ∨
      violations px py xmin xmax ymin ymax < violations x0 y0 xmin xmax ymin ymax)
    (hmin : ∀ t : ℚ, 0 ≤ t → t ≤ 1 →
      insideRect (x0 + t * (x1 - x0)) (y0 + t * (y1 - y0)) xmin xmax ymin ymax → τ ≤ t) :
    StepSpec xmin xmax ymin ymax
      ⟨x0, y0, x1, y1, computeOutCode x0 y0 xmin xmax ymin ymax,
        computeOutCode x1 y1 xmin xmax ymin ymax⟩
      ⟨px, py, x1, y1, computeOutCode px py xmin xmax ymin ymax,
        computeOutCode x1 y1 xmin xmax ymin ymax⟩ := by
  refine ⟨⟨rfl, rfl⟩, ?_, τ, h0, h1, Or.inl ⟨hpx, hpy, rfl, rfl, hmin⟩⟩
  rcases hprog with h | h
  · exact Or.inl h
  · right
    simp only [clipMeasure]
    omega

/-- Packaging of a replacement of the second endpoint. -/
theorem stepSpec_second (x0 y0 x1 y1 px py τ xmin xmax ymin ymax : ℚ)
    (h0 : 0 ≤ τ) (h1 : τ ≤ 1)
    (hpx : px = x0 + τ * (x1 - x0)) (hpy : py = y0 + τ * (y1 - y0))
    (hprog : computeOutCode px py xmin xmax ymin ymax &&&
        computeOutCode x0 y0 xmin xmax ymin ymax ≠ 0 ∨
      violations px py xmin xmax ymin ymax < violations x1 y1 xmin xmax ymin ymax)
    (hmax : ∀ t : ℚ, 0 ≤ t → t ≤ 1 →
      insideRect (x0 + t * (x1 - x0)) (y0 + t * (y1 - y0)) xmin xmax ymin ymax → t ≤ τ) :
    StepSpec xmin xmax ymin ymax
      ⟨x0, y0, x1, y1, computeOutCode x0 y0 xmin xmax ymin ymax,
        computeOutCode x1 y1 xmin xmax ymin ymax⟩
      ⟨x0, y0, px, py, computeOutCode x0 y0 xmin xmax ymin ymax,
        computeOutCode px py xmin xmax ymin ymax⟩ := by
  refine ⟨⟨rfl, rfl⟩, ?_, τ, h0, h1, Or.inr ⟨rfl, rfl, hpx, hpy, hmax⟩⟩
  rcases hprog with h | h
  · left
    simp only
    rw [Nat.land_comm]
    exact h
  · right
    simp only [clipMeasure]
    omega

/-- The loop body when the first endpoint is the one selected. -/
theorem clipIter_first (xmin xmax ymin ymax x0 y0 x1 y1 : ℚ) (c0 c1 : Nat) (h : c0 ≠ 0) :
    clipIter xmin xmax ymin ymax ⟨x0, y0, x1, y1, c0, c1⟩ =
      ⟨(intersection ⟨x0, y0, x1, y1, c0, c1⟩ c0).1, (intersection ⟨x0, y0, x1, y1, c0, c1⟩ c0).2,
        x1, y1,
        computeOutCode (intersection ⟨x0, y0, x1, y1, c0, c1⟩ c0).1
          (intersection ⟨x0, y0, x1, y1, c0, c1⟩ c0).2 xmin xmax ymin ymax, c1⟩ := by
  simp [clipIter, selectOutCode, h]

/-- The loop body when the first code is zero: the second endpoint is selected. -/
theorem clipIter_second (xmin xmax ymin ymax x0 y0 x1 y1 : ℚ) (c1 : Nat) (h : c1 ≠ 0) :
    clipIter xmin xmax ymin ymax ⟨x0, y0, x1, y1, 0, c1⟩ =
      ⟨x0, y0, (intersection ⟨x0, y0, x1, y1, 0, c1⟩ c1).1,
        (intersection ⟨x0, y0, x1, y1, 0, c1⟩ c1).2, 0,
        computeOutCode (intersection ⟨x0, y0, x1, y1, 0, c1⟩ c1).1
          (intersection ⟨x0, y0, x1, y1, 0, c1⟩ c1).2 xmin xmax ymin ymax⟩ := by
  simp [clipIter, selectOutCode, h]

/-- The same, for a first code known to be zero. -/
theorem clipIter_second2 (xmin xmax ymin ymax x0 y0 x1 y1 : ℚ) (c0 c1 : Nat) (h0 : c0 = 0)
    (h : c1 ≠ 0) :
    clipIter xmin xmax ymin ymax ⟨x0, y0, x1, y1, c0, c1⟩ =
      ⟨x0, y0, (intersection ⟨x0, y0, x1, y1, c0, c1⟩ c1).1,
        (intersection ⟨x0, y0, x1, y1, c0, c1⟩ c1).2, c0,
        computeOutCode (intersection ⟨x0, y0, x1, y1, c0, c1⟩ c1).1
          (intersection ⟨x0, y0, x1, y1, c0, c1⟩ c1).2 xmin xmax ymin ymax⟩ := by
  subst h0
  exact clipIter_second _ _ _ _ _ _ _ _ _ h

theorem intersection_top (s : ClipState) (c : Nat) (hT : c &&& TOP ≠ 0) :
    intersection s c =
      (s.x0 + (s.x1 - s.x0) * (boardYmax - s.y0) / (s.y1 - s.y0), boardYmax) := by
  unfold intersection
  rw [if_pos hT]

theorem intersection_bottom (s : ClipState) (c : Nat) (hT : ¬ c &&& TOP ≠ 0)
    (hB : c &&& BOTTOM ≠ 0) :
    intersection s c =
      (s.x0 + (s.x1 - s.x0) * (boardYmin - s.y0) / (s.y1 - s.y0), boardYmin) := by
  unfold intersection
  rw [if_neg hT, if_pos hB]

theorem intersection_right (s : ClipState) (c : Nat) (hT : ¬ c &&& TOP ≠ 0)
    (hB : ¬ c &&& BOTTOM ≠ 0) (hR : c &&& RIGHT ≠ 0) :
    intersection s c =
      (boardXmax, s.y0 + (s.y1 - s.y0) * (boardXmax - s.x0) / (s.x1 - s.x0)) := by
  unfold intersection
  rw [if_neg hT, if_neg hB, if_pos hR]

theorem intersection_left (s : ClipState) (c : Nat) (hT : ¬ c &&& TOP ≠ 0)
    (hB : ¬ c &&& BOTTOM ≠ 0) (hR : ¬ c &&& RIGHT ≠ 0) (hL : c &&& LEFT ≠ 0) :
    intersection s c =
      (boardXmin, s.y0 + (s.y1 - s.y0) * (boardXmin - s.x0) / (s.x1 - s.x0)) := by
  unfold intersection
  rw [if_neg hT, if_neg hB, if_neg hR, if_pos hL]

/-- One replacement against the board rectangle, from a state that passes
neither the accept nor the reject test. -/
theorem clipIter_board_step (s : ClipState)
    (hc : CodesOk boardXmin boardXmax boardYmin boardYmax s)
    (hor : (s.code0 ||| s.code1) ≠ 0) (hand : (s.code0 &&& s.code1) = 0) :
    StepSpec boardXmin boardXmax boardYmin boardYmax s
      (clipIter boardXmin boardXmax boardYmin boardYmax s) := by
  obtain ⟨x0, y0, x1, y1, c0, c1⟩ := s
  obtain ⟨e0, e1⟩ := hc
  simp only at e0 e1 hor hand
  subst e0 e1
  have hns : ¬ (computeOutCode x0 y0 boardXmin boardXmax boardYmin boardYmax &&&
      computeOutCode x1 y1 boardXmin boardXmax boardYmin boardYmax ≠ 0) := fun h => h hand
  rw [code_and_ne_zero_iff] at hns
  have nsL := fun h => hns (Or.inl h)
  have nsR := fun h => hns (Or.inr (Or.inl h))
  have nsB := fun h => hns (Or.inr (Or.inr (Or.inl h)))
  have nsT := fun h => hns (Or.inr (Or.inr (Or.inr h)))
  by_cases hz : computeOutCode x0 y0 boardXmin boardXmax boardYmin boardYmax = 0
  · have h1 : computeOutCode x1 y1 boardXmin boardXmax boardYmin boardYmax ≠ 0 := by
      intro h
      apply hor
      rw [code_or_eq_zero_iff]
      exact ⟨hz, h⟩
    have hin0 := (code_eq_zero_iff x0 y0 boardXmin boardXmax boardYmin boardYmax).mp hz
    rw [clipIter_second2 _ _ _ _ _ _ _ _ _ _ hz h1]
    by_cases hT :
        computeOutCode x1 y1 boardXmin boardXmax boardYmin boardYmax &&& TOP ≠ 0
    · rw [intersection_top _ _ hT]
      have gT := hT
      rw [code_top_iff] at gT
      obtain ⟨t0, t1, teq, tord⟩ := param_second_above y0 y1 boardYmax hin0.2.2.2 gT.2
      have hbt := between_of_param x0 x1 ((boardYmax - y0) / (y1 - y0)) t0 t1
      have hoe : x0 + (x1 - x0) * (boardYmax - y0) / (y1 - y0) =
          x0 + (boardYmax - y0) / (y1 - y0) * (x1 - x0) := by ring
      rw [← hoe] at hbt
      exact stepSpec_second x0 y0 x1 y1 _ _ ((boardYmax - y0) / (y1 - y0)) _ _ _ _
        t0 t1 hoe teq.symm
        (progress_of_fixed_y x1 y1 x0 y0 _ _ _ _ _ _ board_x_valid (Or.inr gT.2)
          ⟨board_y_valid, le_refl _⟩ hbt.symm)
        (fun t _ _ hin => tord t hin.2.2.2)
    · by_cases hB :
          computeOutCode x1 y1 boardXmin boardXmax boardYmin boardYmax &&& BOTTOM ≠ 0
      · rw [intersection_bottom _ _ hT hB]
        have gB := hB
        rw [code_bottom_iff] at gB
        obtain ⟨t0, t1, teq, tord⟩ := param_second_below y0 y1 boardYmin hin0.2.2.1 gB
        have hbt := between_of_param x0 x1 ((boardYmin - y0) / (y1 - y0)) t0 t1
        have hoe : x0 + (x1 - x0) * (boardYmin - y0) / (y1 - y0) =
            x0 + (boardYmin - y0) / (y1 - y0) * (x1 - x0) := by ring
        rw [← hoe] at hbt
        exact stepSpec_second x0 y0 x1 y1 _ _ ((boardYmin - y0) / (y1 - y0)) _ _ _ _
          t0 t1 hoe teq.symm
          (progress_of_fixed_y x1 y1 x0 y0 _ _ _ _ _ _ board_x_valid (Or.inl gB)
            ⟨le_refl _, board_y_valid⟩ hbt.symm)
          (fun t _ _ hin => tord t hin.2.2.1)
      · by_cases hR :
            computeOutCode x1 y1 boardXmin boardXmax boardYmin boardYmax &&& RIGHT ≠ 0
        · rw [intersection_right _ _ hT hB hR]
          have gR := hR
          rw [code_right_iff] at gR
          obtain ⟨t0, t1, teq, tord⟩ := param_second_above x0 x1 boardXmax hin0.2.1 gR.2
          have hbt := between_of_param y0 y1 ((boardXmax - x0) / (x1 - x0)) t0 t1
          have hoe : y0 + (y1 - y0) * (boardXmax - x0) / (x1 - x0) =
              y0 + (boardXmax - x0) / (x1 - x0) * (y1 - y0) := by ring
          rw [← hoe] at hbt
          exact stepSpec_second x0 y0 x1 y1 _ _ ((boardXmax - x0) / (x1 - x0)) _ _ _ _
            t0 t1 teq.symm hoe
            (progress_of_fixed_x x1 y1 x0 y0 _ _ _ _ _ _ board_y_valid (Or.inr gR.2)
              ⟨board_x_valid, le_refl _⟩ hbt.symm)
            (fun t _ _ hin => tord t hin.2.1)
        · have hL := code_bit_of_ne_zero _ _ _ _ _ _ h1 hT hB hR
          rw [intersection_left _ _ hT hB hR hL]
          have gL := hL
          rw [code_left_iff] at gL
          obtain ⟨t0, t1, teq, tord⟩ := param_second_below x0 x1 boardXmin hin0.1 gL
          have hbt := between_of_param y0 y1 ((boardXmin - x0) / (x1 - x0)) t0 t1
          have hoe : y0 + (y1 - y0) * (boardXmin - x0) / (x1 - x0) =
              y0 + (boardXmin - x0) / (x1 - x0) * (y1 - y0) := by ring
          rw [← hoe] at hbt
          exact stepSpec_second x0 y0 x1 y1 _ _ ((boardXmin - x0) / (x1 - x0)) _ _ _ _
            t0 t1 teq.symm hoe
            (progress_of_fixed_x x1 y1 x0 y0 _ _ _ _ _ _ board_y_valid (Or.inl gL)
              ⟨le_refl _, board_x_valid⟩ hbt.symm)
            (fun t _ _ hin => tord t hin.1)
  · rw [clipIter_first _ _ _ _ _ _ _ _ _ _ hz]
    by_cases hT :
        computeOutCode x0 y0 boardXmin boardXmax boardYmin boardYmax &&& TOP ≠ 0
    · rw [intersection_top _ _ hT]
      have gT := hT
      rw [code_top_iff] at gT
      have hoth : y1 ≤ boardYmax := by
        by_contra hcon
        push_neg at hcon
        exact nsT ⟨gT, ⟨by linarith [board_y_valid], hcon⟩⟩
      obtain ⟨t0, t1, teq, tord⟩ := param_first_above y0 y1 boardYmax gT.2 hoth
      have hbt := between_of_param x0 x1 ((boardYmax - y0) / (y1 - y0)) t0 t1
      have hoe : x0 + (x1 - x0) * (boardYmax - y0) / (y1 - y0) =
          x0 + (boardYmax - y0) / (y1 - y0) * (x1 - x0) := by ring
      rw [← hoe] at hbt
      exact stepSpec_first x0 y0 x1 y1 _ _ ((boardYmax - y0) / (y1 - y0)) _ _ _ _
        t0 t1 hoe teq.symm
        (progress_of_fixed_y x0 y0 x1 y1 _ _ _ _ _ _ board_x_valid (Or.inr gT.2)
          ⟨board_y_valid, le_refl _⟩ hbt)
        (fun t _ _ hin => tord t hin.2.2.2)
    · by_cases hB :
          computeOutCode x0 y0 boardXmin boardXmax boardYmin boardYmax &&& BOTTOM ≠ 0
      · rw [intersection_bottom _ _ hT hB]
        have gB := hB
        rw [code_bottom_iff] at gB
        have hoth : boardYmin ≤ y1 := not_lt.mp (fun hcon => nsB ⟨gB, hcon⟩)
        obtain ⟨t0, t1, teq, tord⟩ := param_first_below y0 y1 boardYmin gB hoth
        have hbt := between_of_param x0 x1 ((boardYmin - y0) / (y1 - y0)) t0 t1
        have hoe : x0 + (x1 - x0) * (boardYmin - y0) / (y1 - y0) =
            x0 + (boardYmin - y0) / (y1 - y0) * (x1 - x0) := by ring
        rw [← hoe] at hbt
        exact stepSpec_first x0 y0 x1 y1 _ _ ((boardYmin - y0) / (y1 - y0)) _ _ _ _
          t0 t1 hoe teq.symm
          (progress_of_fixed_y x0 y0 x1 y1 _ _ _ _ _ _ board_x_valid (Or.inl gB)
            ⟨le_refl _, board_y_valid⟩ hbt)
          (fun t _ _ hin => tord t hin.2.2.1)
      · by_cases hR :
            computeOutCode x0 y0 boardXmin boardXmax boardYmin boardYmax &&& RIGHT ≠ 0
        · rw [intersection_right _ _ hT hB hR]
          have gR := hR
          rw [code_right_iff] at gR
          have hoth : x1 ≤ boardXmax := by
            by_contra hcon
            push_neg at hcon
            exact nsR ⟨gR, ⟨by linarith [board_x_valid], hcon⟩⟩
          obtain ⟨t0, t1, teq, tord⟩ := param_first_above x0 x1 boardXmax gR.2 hoth
          have hbt := between_of_param y0 y1 ((boardXmax - x0) / (x1 - x0)) t0 t1
          have hoe : y0 + (y1 - y0) * (boardXmax - x0) / (x1 - x0) =
              y0 + (boardXmax - x0) / (x1 - x0) * (y1 - y0) := by ring
          rw [← hoe] at hbt
          exact stepSpec_first x0 y0 x1 y1 _ _ ((boardXmax - x0) / (x1 - x0)) _ _ _ _
            t0 t1 teq.symm hoe
            (progress_of_fixed_x x0 y0 x1 y1 _ _ _ _ _ _ board_y_valid (Or.inr gR.2)
              ⟨board_x_valid, le_refl _⟩ hbt)
            (fun t _ _ hin => tord t hin.2.1)
        · have hL := code_bit_of_ne_zero _ _ _ _ _ _ hz hT hB hR
          rw [intersection_left _ _ hT hB hR hL]
          have gL := hL
          rw [code_left_iff] at gL
          have hoth : boardXmin ≤ x1 := not_lt.mp (fun hcon => nsL ⟨gL, hcon⟩)
          obtain ⟨t0, t1, teq, tord⟩ := param_first_below x0 x1 boardXmin gL hoth
          have hbt := between_of_param y0 y1 ((boardXmin - x0) / (x1 - x0)) t0 t1
          have hoe : y0 + (y1 - y0) * (boardXmin - x0) / (x1 - x0) =
              y0 + (boardXmin - x0) / (x1 - x0) * (y1 - y0) := by ring
          rw [← hoe] at hbt
          exact stepSpec_first x0 y0 x1 y1 _ _ ((boardXmin - x0) / (x1 - x0)) _ _ _ _
            t0 t1 teq.symm hoe
            (progress_of_fixed_x x0 y0 x1 y1 _ _ _ _ _ _ board_y_valid (Or.inl gL)
              ⟨le_refl _, board_x_valid⟩ hbt)
            (fun t _ _ hin => tord t hin.1)

/-! ## The whole loop against the board rectangle -/

theorem violations_le_two (x y xmin xmax ymin ymax : ℚ) :
    violations x y xmin xmax ymin ymax ≤ 2 := by
  unfold violations
  split_ifs <;> decide

theorem clipMeasure_le_four (xmin xmax ymin ymax : ℚ) (s : ClipState) :
    clipMeasure xmin xmax ymin ymax s ≤ 4 := by
  have a := violations_le_two s.x0 s.y0 xmin xmax ymin ymax
  have b := violations_le_two s.x1 s.y1 xmin xmax ymin ymax
  unfold clipMeasure
  omega

/-- A point that violates no axis has the code zero. -/
theorem code_eq_zero_of_violations (x y xmin xmax ymin ymax : ℚ)
    (h : violations x y xmin xmax ymin ymax = 0) :
    computeOutCode x y xmin xmax ymin ymax = 0 := by
  rw [code_eq_zero_iff]
  unfold violations at h
  unfold insideRect
  have h1 : ¬ (x < xmin ∨ x > xmax) := by
    intro hx
    rw [if_pos hx] at h
    omega
  have h2 : ¬ (y < ymin ∨ y > ymax) := by
    intro hy
    rw [if_pos hy] at h
    omega
  push_neg at h1 h2
  exact ⟨h1.1, h1.2, h2.1, h2.2⟩

/-- A state that fails the accept test has a violated axis. -/
theorem clipMeasure_pos (xmin xmax ymin ymax : ℚ) (s : ClipState)
    (hc : CodesOk xmin xmax ymin ymax s) (hor : (s.code0 ||| s.code1) ≠ 0) :
    0 < clipMeasure xmin xmax ymin ymax s := by
  by_contra h
  apply hor
  have hz : clipMeasure xmin xmax ymin ymax s = 0 := by omega
  unfold clipMeasure at hz
  rw [hc.1, hc.2, code_or_eq_zero_iff]
  exact ⟨code_eq_zero_of_violations _ _ _ _ _ _ (by omega),
    code_eq_zero_of_violations _ _ _ _ _ _ (by omega)⟩

/-- Codes that share a bit are not both zero. -/
theorem or_ne_zero_of_and_ne_zero (xmin xmax ymin ymax : ℚ) (s : ClipState)
    (hc : CodesOk xmin xmax ymin ymax s) (hand : (s.code0 &&& s.code1) ≠ 0) :
    (s.code0 ||| s.code1) ≠ 0 := by
  intro h
  rw [hc.1, hc.2, code_or_eq_zero_iff] at h
  apply hand
  rw [hc.1, hc.2, h.1, h.2]
  rfl

/-- Run of the loop against the board rectangle: from a state whose codes
describe its endpoints and whose measure is at most `n`, with fuel `n + 1`, the
loop ends in a state `s'` after `j ≤ n` replacements; any property kept by a
replacement holds of `s'`. -/
theorem clipLoop_board_run (Inv : ClipState → Prop)
    (hstep : ∀ s : ClipState, CodesOk boardXmin boardXmax boardYmin boardYmax s →
      (s.code0 ||| s.code1) ≠ 0 → (s.code0 &&& s.code1) = 0 → Inv s →
      Inv (clipIter boardXmin boardXmax boardYmin boardYmax s)) (n : Nat) :
    ∀ (k : Nat) (s : ClipState), CodesOk boardXmin boardXmax boardYmin boardYmax s →
      clipMeasure boardXmin boardXmax boardYmin boardYmax s ≤ n → Inv s →
      ∃ (s' : ClipState) (j : Nat), j ≤ n ∧
        CodesOk boardXmin boardXmax boardYmin boardYmax s' ∧ Inv s' ∧
        (((s'.code0 ||| s'.code1) = 0 ∧
            clipLoop boardXmin boardXmax boardYmin boardYmax (n + 1) k s =
              some ⟨true, s'.x0, s'.y0, s'.x1, s'.y1, k + j⟩) ∨
         ((s'.code0 &&& s'.code1) ≠ 0 ∧
            clipLoop boardXmin boardXmax boardYmin boardYmax (n + 1) k s =
              some ⟨false, s'.x0, s'.y0, s'.x1, s'.y1, k + j⟩)) := by
  induction n with
  | zero =>
    intro k s hc hm hinv
    have hz : (s.code0 ||| s.code1) = 0 := by
      by_contra hor
      have := clipMeasure_pos _ _ _ _ s hc hor
      omega
    exact ⟨s, 0, le_refl _, hc, hinv, Or.inl ⟨hz, clipLoop_accept _ _ _ _ _ _ _ hz⟩⟩
  | succ m ih =>
    intro k s hc hm hinv
    by_cases hor : (s.code0 ||| s.code1) = 0
    · exact ⟨s, 0, Nat.zero_le _, hc, hinv, Or.inl ⟨hor, clipLoop_accept _ _ _ _ _ _ _ hor⟩⟩
    · by_cases hand : (s.code0 &&& s.code1) = 0
      · obtain ⟨hc', hprog, _⟩ := clipIter_board_step s hc hor hand
        have hinv' := hstep s hc hor hand hinv
        rw [clipLoop_iter _ _ _ _ _ _ _ hor hand]
        rcases hprog with hrej | hlt
        · have hor' := or_ne_zero_of_and_ne_zero _ _ _ _ _ hc' hrej
          refine ⟨clipIter boardXmin boardXmax boardYmin boardYmax s, 1, by omega, hc', hinv',
            Or.inr ⟨hrej, ?_⟩⟩
          exact clipLoop_reject _ _ _ _ _ _ _ hor' hrej
        · obtain ⟨s', j, hj, hcs, hinvs, hres⟩ := ih (k + 1)
            (clipIter boardXmin boardXmax boardYmin boardYmax s) hc' (by omega) hinv'
          have e : k + 1 + j = k + (j + 1) := by omega
          rw [e] at hres
          exact ⟨s', j + 1, by omega, hcs, hinvs, hres⟩
      · have hor' : (s.code0 ||| s.code1) ≠ 0 := hor
        exact ⟨s, 0, Nat.zero_le _, hc, hinv,
          Or.inr ⟨hand, clipLoop_reject _ _ _ _ _ _ _ hor' hand⟩⟩

/-- A replacement against the board rectangle cuts off no point of the
rectangle. -/
theorem clipIter_board_meets (s : ClipState)
    (hc : CodesOk boardXmin boardXmax boardYmin boardYmax s)
    (hor : (s.code0 ||| s.code1) ≠ 0) (hand : (s.code0 &&& s.code1) = 0) :
    segmentMeetsRect (clipIter boardXmin boardXmax boardYmin boardYmax s).x0
        (clipIter boardXmin boardXmax boardYmin boardYmax s).y0
        (clipIter boardXmin boardXmax boardYmin boardYmax s).x1
        (clipIter boardXmin boardXmax boardYmin boardYmax s).y1
        boardXmin boardXmax boardYmin boardYmax ↔
      segmentMeetsRect s.x0 s.y0 s.x1 s.y1 boardXmin boardXmax boardYmin boardYmax := by
  obtain ⟨_, _, τ, h0, h1, h⟩ := clipIter_board_step s hc hor hand
  rcases h with ⟨e1, e2, e3, e4, hmin⟩ | ⟨e1, e2, e3, e4, hmax⟩
  · rw [e1, e2, e3, e4]
    exact meets_iff_replace_first _ _ _ _ τ _ _ _ _ h0 h1 hmin
  · rw [e1, e2, e3, e4]
    exact meets_iff_replace_second _ _ _ _ τ _ _ _ _ h0 h1 hmax

/-- C2: against the board rectangle (`xmin = 100, xmax = 400, ymin = 300,
ymax = 450`), for every segment, `cohenSutherlandClip` returns, and it returns
accepted = true if and only if some point of the closed segment lies in the
closed rectangle. -/
theorem cohenSutherlandClip_board_accept_iff (x0 y0 x1 y1 : ℚ) :
    ∃ r : ClipResult,
      cohenSutherlandClip 5 x0 y0 x1 y1 100 400 300 450 = some r ∧
      (r.accept = true ↔ segmentMeetsRect x0 y0 x1 y1 100 400 300 450) := by
  have hrun := clipLoop_board_run
    (fun s => segmentMeetsRect s.x0 s.y0 s.x1 s.y1 boardXmin boardXmax boardYmin boardYmax ↔
      segmentMeetsRect x0 y0 x1 y1 boardXmin boardXmax boardYmin boardYmax)
    (fun s hc hor hand hinv => (clipIter_board_meets s hc hor hand).trans hinv)
    4 0 (initState x0 y0 x1 y1 boardXmin boardXmax boardYmin boardYmax) ⟨rfl, rfl⟩
    (clipMeasure_le_four _ _ _ _ _) Iff.rfl
  obtain ⟨s', j, _, hc, hinv, hres⟩ := hrun
  rcases hres with ⟨hz, hres⟩ | ⟨hand, hres⟩
  · refine ⟨_, hres, ?_⟩
    simp only [true_iff]
    apply hinv.mp
    rw [hc.1, hc.2, code_or_eq_zero_iff, code_eq_zero_iff] at hz
    refine ⟨0, le_refl _, by norm_num, ?_⟩
    have ex : s'.x0 + 0 * (s'.x1 - s'.x0) = s'.x0 := by ring
    have ey : s'.y0 + 0 * (s'.y1 - s'.y0) = s'.y0 := by ring
    rw [ex, ey]
    exact hz.1
  · refine ⟨_, hres, ?_⟩
    constructor
    · intro h
      exact Bool.noConfusion h
    · intro h
      rw [hc.1, hc.2] at hand
      exact absurd (hinv.mpr h) (not_meets_of_shared_bit _ _ _ _ _ _ _ _ hand)

/-- C10 (amended): against the board rectangle, for every segment, the loop of
`cohenSutherlandClip` reaches accept or reject after at most 4 iterations that
replace an endpoint. -/
theorem cohenSutherlandClip_board_terminates (x0 y0 x1 y1 : ℚ) :
    ∃ r : ClipResult,
      cohenSutherlandClip 5 x0 y0 x1 y1 100 400 300 450 = some r ∧ r.iters ≤ 4 := by
  have hrun := clipLoop_board_run (fun _ => True) (fun _ _ _ _ _ => trivial)
    4 0 (initState x0 y0 x1 y1 boardXmin boardXmax boardYmin boardYmax) ⟨rfl, rfl⟩
    (clipMeasure_le_four _ _ _ _ _) trivial
  obtain ⟨s', j, hj, _, _, hres⟩ := hrun
  rcases hres with ⟨_, hres⟩ | ⟨_, hres⟩
  · exact ⟨_, hres, by simpa using hj⟩
  · exact ⟨_, hres, by simpa using hj⟩

/-! ## Sutherland–Hodgman: the four passes as one generic pass -/

theorem clipLeft_eq (poly : List Point) (xMin : ℚ) :
    clipLeft poly xMin = clipEdge (fun p => decide (p.x ≥ xMin)) (interX xMin) poly := by
  unfold clipLeft clipEdge
  dsimp only
  congr 1
  funext result i
  simp only [emitEdge, interX]
  split_ifs <;> simp

theorem clipRight_eq (poly : List Point) (xMax : ℚ) :
    clipRight poly xMax = clipEdge (fun p => decide (p.x ≤ xMax)) (interX xMax) poly := by
  unfold clipRight clipEdge
  dsimp only
  congr 1
  funext result i
  simp only [emitEdge, interX]
  split_ifs <;> simp

theorem clipBottom_eq (poly : List Point) (yMin : ℚ) :
    clipBottom poly yMin = clipEdge (fun p => decide (p.y ≥ yMin)) (interY yMin) poly := by
  unfold clipBottom clipEdge
  dsimp only
  congr 1
  funext result i
  simp only [emitEdge, interY]
  split_ifs <;> simp

theorem clipTop_eq (poly : List Point) (yMax : ℚ) :
    clipTop poly yMax = clipEdge (fun p => decide (p.y ≤ yMax)) (interY yMax) poly := by
  unfold clipTop clipEdge
  dsimp only
  congr 1
  funext result i
  simp only [emitEdge, interY]
  split_ifs <;> simp

theorem foldl_append_eq_flatten (f : Nat → List Point) (l : List Nat) :
    ∀ init : List Point,
      l.foldl (fun result i => result ++ f i) init = init ++ (l.map f).flatten := by
  induction l with
  | nil => intro init; simp
  | cons a t ih =>
    intro init
    simp [ih, List.append_assoc]

theorem clipEdge_eq_flatten (ins : Point → Bool) (inter : Point → Point → Point)
    (poly : List Point) :
    clipEdge ins inter poly =
      ((List.range poly.length).map (fun i =>
        emitEdge ins inter (poly.getD ((i + poly.length - 1) % poly.length) ⟨0, 0⟩)
          (poly.getD i ⟨0, 0⟩))).flatten := by
  unfold clipEdge
  rw [foldl_append_eq_flatten]
  simp

theorem clipEdge_nil (ins : Point → Bool) (inter : Point → Point → Point) :
    clipEdge ins inter [] = [] := by
  rfl

theorem getD_mem (poly : List Point) (i : Nat) (h : i < poly.length) :
    poly.getD i ⟨0, 0⟩ ∈ poly := by
  rw [List.getD_eq_getElem _ _ h]
  exact List.getElem_mem h

/-- Every vertex pushed by a pass comes from a pair of vertices of the input. -/
theorem mem_clipEdge (ins : Point → Bool) (inter : Point → Point → Point)
    (poly : List Point) (v : Point) (hv : v ∈ clipEdge ins inter poly) :
    ∃ prev ∈ poly, ∃ curr ∈ poly, v ∈ emitEdge ins inter prev curr := by
  rw [clipEdge_eq_flatten, List.mem_flatten] at hv
  obtain ⟨l, hl, hvl⟩ := hv
  rw [List.mem_map] at hl
  obtain ⟨i, hi, rfl⟩ := hl
  rw [List.mem_range] at hi
  have hpos : 0 < poly.length := by omega
  exact ⟨_, getD_mem poly _ (Nat.mod_lt _ hpos), _, getD_mem poly _ hi, hvl⟩

theorem mem_emitEdge (ins : Point → Bool) (inter : Point → Point → Point)
    (prev curr v : Point) (hv : v ∈ emitEdge ins inter prev curr) :
    (v = curr ∧ ins curr = true) ∨ (v = inter prev curr ∧ ins prev ≠ ins curr) := by
  unfold emitEdge at hv
  cases hp : ins prev <;> cases hq : ins curr <;> rw [hp, hq] at hv
  · exact absurd hv (List.not_mem_nil v)
  · rcases List.mem_cons.mp hv with h | h
    · exact Or.inr ⟨h, by decide⟩
    · exact Or.inl ⟨List.mem_singleton.mp h, rfl⟩
  · exact Or.inr ⟨List.mem_singleton.mp hv, by decide⟩
  · exact Or.inl ⟨List.mem_singleton.mp hv, rfl⟩

theorem map_getD_range (poly : List Point) :
    (List.range poly.length).map (fun i => poly.getD i ⟨0, 0⟩) = poly := by
  apply List.ext_getElem
  · simp
  · intro i h1 h2
    rw [List.getElem_map, List.getElem_range, List.getD_eq_getElem _ _ h2]

theorem flatten_map_single (l : List Point) : (l.map (fun p => [p])).flatten = l := by
  induction l with
  | nil => rfl
  | cons a t ih =>
    rw [List.map_cons, List.flatten_cons, ih]
    rfl

/-- A pass returns its input when every vertex passes the inside test. -/
theorem clipEdge_all_inside (ins : Point → Bool) (inter : Point → Point → Point)
    (poly : List Point) (h : ∀ p ∈ poly, ins p = true) :
    clipEdge ins inter poly = poly := by
  rw [clipEdge_eq_flatten]
  have e : (List.range poly.length).map (fun i =>
      emitEdge ins inter (poly.getD ((i + poly.length - 1) % poly.length) ⟨0, 0⟩)
        (poly.getD i ⟨0, 0⟩)) =
      (List.range poly.length).map (fun i => [poly.getD i ⟨0, 0⟩]) := by
    apply List.map_congr_left
    intro i hi
    rw [List.mem_range] at hi
    have hpos : 0 < poly.length := by omega
    have a := h _ (getD_mem poly _ (Nat.mod_lt (i + poly.length - 1) hpos))
    have b := h _ (getD_mem poly _ hi)
    unfold emitEdge
    rw [a, b]
    rfl
  rw [e]
  have e2 : (List.range poly.length).map (fun i => [poly.getD i ⟨0, 0⟩]) =
      ((List.range poly.length).map (fun i => poly.getD i ⟨0, 0⟩)).map (fun p => [p]) := by
    rw [List.map_map]
    rfl
  rw [e2, map_getD_range, flatten_map_single]

/-- A pass returns the empty sequence when every vertex fails the inside test. -/
theorem clipEdge_all_outside (ins : Point → Bool) (inter : Point → Point → Point)
    (poly : List Point) (h : ∀ p ∈ poly, ins p = false) :
    clipEdge ins inter poly = [] := by
  apply List.eq_nil_iff_forall_not_mem.mpr
  intro v hv
  obtain ⟨prev, hp, curr, hq, hm⟩ := mem_clipEdge ins inter poly v hv
  unfold emitEdge at hm
  rw [h prev hp, h curr hq] at hm
  exact absurd hm (List.not_mem_nil v)

/-- A property of the input vertices that crossings keep holds of the output. -/
theorem clipEdge_preserves (ins : Point → Bool) (inter : Point → Point → Point)
    (P : Point → Prop) (poly : List Point) (hin : ∀ p ∈ poly, P p)
    (hx : ∀ prev curr : Point, P prev → P curr → ins prev ≠ ins curr → P (inter prev curr)) :
    ∀ v ∈ clipEdge ins inter poly, P v := by
  intro v hv
  obtain ⟨prev, hp, curr, hq, hm⟩ := mem_clipEdge ins inter poly v hv
  rcases mem_emitEdge ins inter prev curr v hm with ⟨rfl, _⟩ | ⟨rfl, hne⟩
  · exact hin _ hq
  · exact hx prev curr (hin _ hp) (hin _ hq) hne

/-- Every output vertex of a pass passes its inside test, when intersections do. -/
theorem clipEdge_gains (ins : Point → Bool) (inter : Point → Point → Point)
    (poly : List Point) (hg : ∀ prev curr : Point, ins (inter prev curr) = true) :
    ∀ v ∈ clipEdge ins inter poly, ins v = true := by
  intro v hv
  obtain ⟨prev, _, curr, _, hm⟩ := mem_clipEdge ins inter poly v hv
  rcases mem_emitEdge ins inter prev curr v hm with ⟨rfl, h⟩ | ⟨rfl, _⟩
  · exact h
  · exact hg prev curr

/-! ## Sutherland–Hodgman: where the intersections lie -/

/-- On a crossing of the bound `c` by the test `· ≥ c`, the parameter of the
intersection lies in `[0,1]`. -/
theorem crossing_ge (a b c : ℚ) (h : decide (a ≥ c) ≠ decide (b ≥ c)) :
    0 ≤ (c - a) / (b - a) ∧ (c - a) / (b - a) ≤ 1 := by
  by_cases ha : a ≥ c
  · have hb : ¬ b ≥ c := by
      intro hb
      apply h
      simp [ha, hb]
    push_neg at hb
    obtain ⟨t0, t1, _, _⟩ := param_second_below a b c ha hb
    exact ⟨t0, t1⟩
  · have hb : b ≥ c := by
      by_contra hb
      apply h
      simp [ha, hb]
    push_neg at ha
    obtain ⟨t0, t1, _, _⟩ := param_first_below a b c ha hb
    exact ⟨t0, t1⟩

/-- On a crossing of the bound `c` by the test `· ≤ c`, the parameter of the
intersection lies in `[0,1]`. -/
theorem crossing_le (a b c : ℚ) (h : decide (a ≤ c) ≠ decide (b ≤ c)) :
    0 ≤ (c - a) / (b - a) ∧ (c - a) / (b - a) ≤ 1 := by
  by_cases ha : a ≤ c
  · have hb : ¬ b ≤ c := by
      intro hb
      apply h
      simp [ha, hb]
    push_neg at hb
    obtain ⟨t0, t1, _, _⟩ := param_second_above a b c ha hb
    exact ⟨t0, t1⟩
  · have hb : b ≤ c := by
      by_contra hb
      apply h
      simp [ha, hb]
    push_neg at ha
    obtain ⟨t0, t1, _, _⟩ := param_first_above a b c ha hb
    exact ⟨t0, t1⟩

/-- The left pass keeps every order-convex property of the `y` coordinate. -/
theorem clipLeft_keeps_y (Q : ℚ → Prop)
    (hQ : ∀ a b m : ℚ, Q a → Q b → ((a ≤ m ∧ m ≤ b) ∨ (b ≤ m ∧ m ≤ a)) → Q m)
    (poly : List Point) (c : ℚ) (hin : ∀ p ∈ poly, Q p.y) :
    ∀ v ∈ clipLeft poly c, Q v.y := by
  rw [clipLeft_eq]
  apply clipEdge_preserves _ _ (fun p => Q p.y) poly hin
  intro prev curr hp hc hne
  obtain ⟨t0, t1⟩ := crossing_ge prev.x curr.x c hne
  exact hQ _ _ _ hp hc (between_of_param prev.y curr.y _ t0 t1)

/-- The right pass keeps every order-convex property of the `y` coordinate. -/
theorem clipRight_keeps_y (Q : ℚ → Prop)
    (hQ : ∀ a b m : ℚ, Q a → Q b → ((a ≤ m ∧ m ≤ b) ∨ (b ≤ m ∧ m ≤ a)) → Q m)
    (poly : List Point) (c : ℚ) (hin : ∀ p ∈ poly, Q p.y) :
    ∀ v ∈ clipRight poly c, Q v.y := by
  rw [clipRight_eq]
  apply clipEdge_preserves _ _ (fun p => Q p.y) poly hin
  intro prev curr hp hc hne
  obtain ⟨t0, t1⟩ := crossing_le prev.x curr.x c hne
  exact hQ _ _ _ hp hc (between_of_param prev.y curr.y _ t0 t1)

/-- The bottom pass keeps every order-convex property of the `x` coordinate. -/
theorem clipBottom_keeps_x (Q : ℚ → Prop)
    (hQ : ∀ a b m : ℚ, Q a → Q b → ((a ≤ m ∧ m ≤ b) ∨ (b ≤ m ∧ m ≤ a)) → Q m)
    (poly : List Point) (c : ℚ) (hin : ∀ p ∈ poly, Q p.x) :
    ∀ v ∈ clipBottom poly c, Q v.x := by
  rw [clipBottom_eq]
  apply clipEdge_preserves _ _ (fun p => Q p.x) poly hin
  intro prev curr hp hc hne
  obtain ⟨t0, t1⟩ := crossing_ge prev.y curr.y c hne
  exact hQ _ _ _ hp hc (between_of_param prev.x curr.x _ t0 t1)

/-- The top pass keeps every order-convex property of the `x` coordinate. -/
theorem clipTop_keeps_x (Q : ℚ → Prop)
    (hQ : ∀ a b m : ℚ, Q a → Q b → ((a ≤ m ∧ m ≤ b) ∨ (b ≤ m ∧ m ≤ a)) → Q m)
    (poly : List Point) (c : ℚ) (hin : ∀ p ∈ poly, Q p.x) :
    ∀ v ∈ clipTop poly c, Q v.x := by
  rw [clipTop_eq]
  apply clipEdge_preserves _ _ (fun p => Q p.x) poly hin
  intro prev curr hp hc hne
  obtain ⟨t0, t1⟩ := crossing_le prev.y curr.y c hne
  exact hQ _ _ _ hp hc (between_of_param prev.x curr.x _ t0 t1)

theorem convex_ge (lo : ℚ) (a b m : ℚ) (ha : lo ≤ a) (hb : lo ≤ b)
    (h : (a ≤ m ∧ m ≤ b) ∨ (b ≤ m ∧ m ≤ a)) : lo ≤ m := by
  rcases h with h | h <;> linarith

theorem convex_le (hi : ℚ) (a b m : ℚ) (ha : a ≤ hi) (hb : b ≤ hi)
    (h : (a ≤ m ∧ m ≤ b) ∨ (b ≤ m ∧ m ≤ a)) : m ≤ hi := by
  rcases h with h | h <;> linarith

theorem convex_lt (hi : ℚ) (a b m : ℚ) (ha : a < hi) (hb : b < hi)
    (h : (a ≤ m ∧ m ≤ b) ∨ (b ≤ m ∧ m ≤ a)) : m < hi := by
  rcases h with h | h <;> linarith

theorem convex_gt (lo : ℚ) (a b m : ℚ) (ha : a > lo) (hb : b > lo)
    (h : (a ≤ m ∧ m ≤ b) ∨ (b ≤ m ∧ m ≤ a)) : m > lo := by
  rcases h with h | h <;> linarith

/-! ## Sutherland–Hodgman: what each pass establishes -/

theorem clipLeft_x_ge (poly : List Point) (c : ℚ) : ∀ v ∈ clipLeft poly c, c ≤ v.x := by
  intro v hv
  rw [clipLeft_eq] at hv
  have := clipEdge_gains _ _ poly (fun prev curr => by simp [interX]) v hv
  exact of_decide_eq_true this

theorem clipRight_x_le (poly : List Point) (c : ℚ) : ∀ v ∈ clipRight poly c, v.x ≤ c := by
  intro v hv
  rw [clipRight_eq] at hv
  have := clipEdge_gains _ _ poly (fun prev curr => by simp [interX]) v hv
  exact of_decide_eq_true this

theorem clipBottom_y_ge (poly : List Point) (c : ℚ) : ∀ v ∈ clipBottom poly c, c ≤ v.y := by
  intro v hv
  rw [clipBottom_eq] at hv
  have := clipEdge_gains _ _ poly (fun prev curr => by simp [interY]) v hv
  exact of_decide_eq_true this

theorem clipTop_y_le (poly : List Point) (c : ℚ) : ∀ v ∈ clipTop poly c, v.y ≤ c := by
  intro v hv
  rw [clipTop_eq] at hv
  have := clipEdge_gains _ _ poly (fun prev curr => by simp [interY]) v hv
  exact of_decide_eq_true this

/-- The right pass keeps `lo ≤ x` when `lo` is not right of its bound. -/
theorem clipRight_keeps_x_ge (poly : List Point) (lo c : ℚ) (h : lo ≤ c)
    (hin : ∀ p ∈ poly, lo ≤ p.x) : ∀ v ∈ clipRight poly c, lo ≤ v.x := by
  rw [clipRight_eq]
  exact clipEdge_preserves _ _ (fun p => lo ≤ p.x) poly hin (fun _ _ _ _ _ => h)

/-- The top pass keeps `lo ≤ y` when `lo` is not above its bound. -/
theorem clipTop_keeps_y_ge (poly : List Point) (lo c : ℚ) (h : lo ≤ c)
    (hin : ∀ p ∈ poly, lo ≤ p.y) : ∀ v ∈ clipTop poly c, lo ≤ v.y := by
  rw [clipTop_eq]
  exact clipEdge_preserves _ _ (fun p => lo ≤ p.y) poly hin (fun _ _ _ _ _ => h)

/-- The left pass keeps `x > hi`: a crossing needs a vertex left of the bound,
which then lies right of `hi` itself. -/
theorem clipLeft_keeps_x_gt (poly : List Point) (hi c : ℚ)
    (hin : ∀ p ∈ poly, p.x > hi) : ∀ v ∈ clipLeft poly c, v.x > hi := by
  rw [clipLeft_eq]
  apply clipEdge_preserves _ _ (fun p => p.x > hi) poly hin
  intro prev curr hp hc hne
  show c > hi
  by_cases ha : prev.x ≥ c
  · have hb : ¬ curr.x ≥ c := by
      intro hb
      apply hne
      simp [ha, hb]
    push_neg at hb
    linarith
  · push_neg at ha
    linarith

/-- The bottom pass keeps `y > hi`, for the same reason. -/
theorem clipBottom_keeps_y_gt (poly : List Point) (hi c : ℚ)
    (hin : ∀ p ∈ poly, p.y > hi) : ∀ v ∈ clipBottom poly c, v.y > hi := by
  rw [clipBottom_eq]
  apply clipEdge_preserves _ _ (fun p => p.y > hi) poly hin
  intro prev curr hp hc hne
  show c > hi
  by_cases ha : prev.y ≥ c
  · have hb : ¬ curr.y ≥ c := by
      intro hb
      apply hne
      simp [ha, hb]
    push_neg at hb
    linarith
  · push_neg at ha
    linarith

theorem clipLeft_nil (c : ℚ) : clipLeft [] c = [] := rfl
theorem clipRight_nil (c : ℚ) : clipRight [] c = [] := rfl
theorem clipBottom_nil (c : ℚ) : clipBottom [] c = [] := rfl
theorem clipTop_nil (c : ℚ) : clipTop [] c = [] := rfl

theorem clipLeft_all_outside (poly : List Point) (c : ℚ) (h : ∀ p ∈ poly, p.x < c) :
    clipLeft poly c = [] := by
  rw [clipLeft_eq]
  exact clipEdge_all_outside _ _ poly (fun p hp => decide_eq_false (not_le.mpr (h p hp)))

theorem clipRight_all_outside (poly : List Point) (c : ℚ) (h : ∀ p ∈ poly, p.x > c) :
    clipRight poly c = [] := by
  rw [clipRight_eq]
  exact clipEdge_all_outside _ _ poly (fun p hp => decide_eq_false (not_le.mpr (h p hp)))

theorem clipBottom_all_outside (poly : List Point) (c : ℚ) (h : ∀ p ∈ poly, p.y < c) :
    clipBottom poly c = [] := by
  rw [clipBottom_eq]
  exact clipEdge_all_outside _ _ poly (fun p hp => decide_eq_false (not_le.mpr (h p hp)))

theorem clipTop_all_outside (poly : List Point) (c : ℚ) (h : ∀ p ∈ poly, p.y > c) :
    clipTop poly c = [] := by
  rw [clipTop_eq]
  exact clipEdge_all_outside _ _ poly (fun p hp => decide_eq_false (not_le.mpr (h p hp)))

theorem clipLeft_all_inside (poly : List Point) (c : ℚ) (h : ∀ p ∈ poly, c ≤ p.x) :
    clipLeft poly c = poly := by
  rw [clipLeft_eq]
  exact clipEdge_all_inside _ _ poly (fun p hp => decide_eq_true (h p hp))

theorem clipRight_all_inside (poly : List Point) (c : ℚ) (h : ∀ p ∈ poly, p.x ≤ c) :
    clipRight poly c = poly := by
  rw [clipRight_eq]
  exact clipEdge_all_inside _ _ poly (fun p hp => decide_eq_true (h p hp))

theorem clipBottom_all_inside (poly : List Point) (c : ℚ) (h : ∀ p ∈ poly, c ≤ p.y) :
    clipBottom poly c = poly := by
  rw [clipBottom_eq]
  exact clipEdge_all_inside _ _ poly (fun p hp => decide_eq_true (h p hp))

theorem clipTop_all_inside (poly : List Point) (c : ℚ) (h : ∀ p ∈ poly, p.y ≤ c) :
    clipTop poly c = poly := by
  rw [clipTop_eq]
  exact clipEdge_all_inside _ _ poly (fun p hp => decide_eq_true (h p hp))

/-! ## Sutherland–Hodgman: the composed clipper -/

/-- After the four passes with a rectangle that has `xmin ≤ xmax` and
`ymin ≤ ymax`, every vertex is within all four bounds. -/
theorem clip_output_in_bounds (poly : List Point) (xmin xmax ymin ymax : ℚ)
    (hx : xmin ≤ xmax) (hy : ymin ≤ ymax) :
    ∀ v ∈ sutherlandHodgmanClip poly xmin xmax ymin ymax,
      xmin ≤ v.x ∧ v.x ≤ xmax ∧ ymin ≤ v.y ∧ v.y ≤ ymax := by
  have l1 := clipLeft_x_ge poly xmin
  have r1 := clipRight_keeps_x_ge (clipLeft poly xmin) xmin xmax hx l1
  have r2 := clipRight_x_le (clipLeft poly xmin) xmax
  have b1 := clipBottom_keeps_x (fun x => xmin ≤ x) (convex_ge xmin)
    (clipRight (clipLeft poly xmin) xmax) ymin r1
  have b2 := clipBottom_keeps_x (fun x => x ≤ xmax) (convex_le xmax)
    (clipRight (clipLeft poly xmin) xmax) ymin r2
  have b3 := clipBottom_y_ge (clipRight (clipLeft poly xmin) xmax) ymin
  have t1 := clipTop_keeps_x (fun x => xmin ≤ x) (convex_ge xmin)
    (clipBottom (clipRight (clipLeft poly xmin) xmax) ymin) ymax b1
  have t2 := clipTop_keeps_x (fun x => x ≤ xmax) (convex_le xmax)
    (clipBottom (clipRight (clipLeft poly xmin) xmax) ymin) ymax b2
  have t3 := clipTop_keeps_y_ge
    (clipBottom (clipRight (clipLeft poly xmin) xmax) ymin) ymin ymax hy b3
  have t4 := clipTop_y_le (clipBottom (clipRight (clipLeft poly xmin) xmax) ymin) ymax
  intro v hv
  exact ⟨t1 v hv, t2 v hv, t3 v hv, t4 v hv⟩

/-- C6: for every vertex sequence and every rectangle with `xmin ≤ xmax` and
`ymin ≤ ymax`, every vertex of `sutherlandHodgmanClip poly` lies in the closed
rectangle. -/
theorem sutherlandHodgmanClip_inside (poly : List Point) (xmin xmax ymin ymax : ℚ)
    (hx : xmin ≤ xmax) (hy : ymin ≤ ymax) :
    ∀ v ∈ sutherlandHodgmanClip poly xmin xmax ymin ymax,
      xmin ≤ v.x ∧ v.x ≤ xmax ∧ ymin ≤ v.y ∧ v.y ≤ ymax :=
  clip_output_in_bounds poly xmin xmax ymin ymax hx hy

theorem sutherlandHodgmanClip_inside_witness :
    (100 : ℚ) ≤ 200 ∧ (100 : ℚ) ≤ 200 ∧
    (⟨100, 200⟩ : Point) ∈
      sutherlandHodgmanClip [⟨50, 50⟩, ⟨250, 50⟩, ⟨250, 250⟩, ⟨50, 250⟩] 100 200 100 200 ∧
    ((100 : ℚ) ≤ (⟨100, 200⟩ : Point).x ∧ (⟨100, 200⟩ : Point).x ≤ 200 ∧
      (100 : ℚ) ≤ (⟨100, 200⟩ : Point).y ∧ (⟨100, 200⟩ : Point).y ≤ 200) :=
  have hmem : (⟨100, 200⟩ : Point) ∈
      sutherlandHodgmanClip [⟨50, 50⟩, ⟨250, 50⟩, ⟨250, 250⟩, ⟨50, 250⟩] 100 200 100 200 := by
    decide!
  ⟨by norm_num, by norm_num, hmem,
    sutherlandHodgmanClip_inside [⟨50, 50⟩, ⟨250, 50⟩, ⟨250, 250⟩, ⟨50, 250⟩] 100 200 100 200
      (by norm_num) (by norm_num) ⟨100, 200⟩ hmem⟩

/-- Vertices within all four bounds pass the four passes unchanged. -/
theorem clip_fixes_in_bounds (poly : List Point) (xmin xmax ymin ymax : ℚ)
    (h : ∀ p ∈ poly, xmin ≤ p.x ∧ p.x ≤ xmax ∧ ymin ≤ p.y ∧ p.y ≤ ymax) :
    sutherlandHodgmanClip poly xmin xmax ymin ymax = poly := by
  unfold sutherlandHodgmanClip
  dsimp only
  rw [clipLeft_all_inside poly xmin (fun p hp => (h p hp).1),
    clipRight_all_inside poly xmax (fun p hp => (h p hp).2.1),
    clipBottom_all_inside poly ymin (fun p hp => (h p hp).2.2.1),
    clipTop_all_inside poly ymax (fun p hp => (h p hp).2.2.2)]

/-- C7: for every rectangle and every polygon all of whose vertices lie in the
closed rectangle, `sutherlandHodgmanClip` returns exactly the input vertex
sequence (same vertices, same order, same length). -/
theorem sutherlandHodgmanClip_of_inside (poly : List Point) (xmin xmax ymin ymax : ℚ)
    (h : ∀ p ∈ poly, xmin ≤ p.x ∧ p.x ≤ xmax ∧ ymin ≤ p.y ∧ p.y ≤ ymax) :
    sutherlandHodgmanClip poly xmin xmax ymin ymax = poly :=
  clip_fixes_in_bounds poly xmin xmax ymin ymax h

theorem sutherlandHodgmanClip_of_inside_witness :
    (∀ p ∈ [(⟨120, 110⟩ : Point), ⟨180, 120⟩, ⟨150, 190⟩],
      (100 : ℚ) ≤ p.x ∧ p.x ≤ 200 ∧ 100 ≤ p.y ∧ p.y ≤ 200) ∧
    sutherlandHodgmanClip [⟨120, 110⟩, ⟨180, 120⟩, ⟨150, 190⟩] 100 200 100 200 =
      [⟨120, 110⟩, ⟨180, 120⟩, ⟨150, 190⟩] :=
  have h : ∀ p ∈ [(⟨120, 110⟩ : Point), ⟨180, 120⟩, ⟨150, 190⟩],
      (100 : ℚ) ≤ p.x ∧ p.x ≤ 200 ∧ 100 ≤ p.y ∧ p.y ≤ 200 := by
    intro p hp
    simp only [List.mem_cons, List.mem_singleton, List.not_mem_nil, or_false] at hp
    rcases hp with rfl | rfl | rfl <;> norm_num
  ⟨h, sutherlandHodgmanClip_of_inside _ 100 200 100 200 h⟩

/-- C8: for every rectangle and every polygon whose vertices all lie strictly
beyond one same side (all `x < xmin`, or all `x > xmax`, or all `y < ymin`, or
all `y > ymax`), `sutherlandHodgmanClip` returns the empty sequence. -/
theorem sutherlandHodgmanClip_of_outside (poly : List Point) (xmin xmax ymin ymax : ℚ)
    (h : (∀ p ∈ poly, p.x < xmin) ∨ (∀ p ∈ poly, p.x > xmax) ∨
         (∀ p ∈ poly, p.y < ymin) ∨ (∀ p ∈ poly, p.y > ymax)) :
    sutherlandHodgmanClip poly xmin xmax ymin ymax = [] := by
  unfold sutherlandHodgmanClip
  dsimp only
  rcases h with h | h | h | h
  · rw [clipLeft_all_outside poly xmin h, clipRight_nil, clipBottom_nil, clipTop_nil]
  · rw [clipRight_all_outside _ xmax (clipLeft_keeps_x_gt poly xmax xmin h),
      clipBottom_nil, clipTop_nil]
  · have l := clipLeft_keeps_y (fun y => y < ymin) (convex_lt ymin) poly xmin h
    have r := clipRight_keeps_y (fun y => y < ymin) (convex_lt ymin) _ xmax l
    rw [clipBottom_all_outside _ ymin r, clipTop_nil]
  · have l := clipLeft_keeps_y (fun y => y > ymax) (convex_gt ymax) poly xmin h
    have r := clipRight_keeps_y (fun y => y > ymax) (convex_gt ymax) _ xmax l
    have b := clipBottom_keeps_y_gt _ ymax ymin r
    rw [clipTop_all_outside _ ymax b]

theorem sutherlandHodgmanClip_of_outside_witness :
    ((∀ p ∈ [(⟨120, 310⟩ : Point), ⟨180, 320⟩, ⟨150, 390⟩], p.x < 100) ∨
      (∀ p ∈ [(⟨120, 310⟩ : Point), ⟨180, 320⟩, ⟨150, 390⟩], p.x > 200) ∨
      (∀ p ∈ [(⟨120, 310⟩ : Point), ⟨180, 320⟩, ⟨150, 390⟩], p.y < 100) ∨
      (∀ p ∈ [(⟨120, 310⟩ : Point), ⟨180, 320⟩, ⟨150, 390⟩], p.y > 200)) ∧
    sutherlandHodgmanClip [⟨120, 310⟩, ⟨180, 320⟩, ⟨150, 390⟩] 100 200 100 200 = [] :=
  have h : ∀ p ∈ [(⟨120, 310⟩ : Point), ⟨180, 320⟩, ⟨150, 390⟩], p.y > 200 := by
    intro p hp
    simp only [List.mem_cons, List.mem_singleton, List.not_mem_nil, or_false] at hp
    rcases hp with rfl | rfl | rfl <;> norm_num
  ⟨Or.inr (Or.inr (Or.inr h)),
    sutherlandHodgmanClip_of_outside _ 100 200 100 200 (Or.inr (Or.inr (Or.inr h)))⟩

/-- With `xmin > xmax` or `ymin > ymax` nothing survives the four passes. -/
theorem sutherlandHodgmanClip_invalid_nil (poly : List Point) (xmin xmax ymin ymax : ℚ)
    (h : xmin > xmax ∨ ymin > ymax) :
    sutherlandHodgmanClip poly xmin xmax ymin ymax = [] := by
  unfold sutherlandHodgmanClip
  dsimp only
  rcases h with h | h
  · have l := clipLeft_x_ge poly xmin
    rw [clipRight_all_outside _ xmax (fun p hp => lt_of_lt_of_le h (l p hp)),
      clipBottom_nil, clipTop_nil]
  · have b := clipBottom_y_ge (clipRight (clipLeft poly xmin) xmax) ymin
    rw [clipTop_all_outside _ ymax (fun p hp => lt_of_lt_of_le h (b p hp))]

/-- C5: idempotence of polygon clipping, for every vertex sequence and every
rectangle: clipping the clipped polygon again returns it unchanged. -/
theorem sutherlandHodgmanClip_idempotent (poly : List Point) (xmin xmax ymin ymax : ℚ) :
    sutherlandHodgmanClip (sutherlandHodgmanClip poly xmin xmax ymin ymax)
        xmin xmax ymin ymax =
      sutherlandHodgmanClip poly xmin xmax ymin ymax := by
  by_cases hv : xmin ≤ xmax ∧ ymin ≤ ymax
  · exact clip_fixes_in_bounds _ xmin xmax ymin ymax
      (clip_output_in_bounds poly xmin xmax ymin ymax hv.1 hv.2)
  · have hi : xmin > xmax ∨ ymin > ymax := by
      by_contra hc
      push_neg at hc
      exact hv hc
    rw [sutherlandHodgmanClip_invalid_nil poly xmin xmax ymin ymax hi]
    rfl

/-- C9 (counterexample): the square `[(50,50),(250,50),(250,250),(50,250)]`
clipped against `xmin = 100, xmax = 200, ymin = 100, ymax = 200` is not the
sequence `[(100,100),(200,100),(200,200),(100,200)]`. -/
theorem square_clip_differs_from_stated :
    sutherlandHodgmanClip [⟨50, 50⟩, ⟨250, 50⟩, ⟨250, 250⟩, ⟨50, 250⟩] 100 200 100 200 ≠
      [⟨100, 100⟩, ⟨200, 100⟩, ⟨200, 200⟩, ⟨100, 200⟩] := by
  decide!

/-- C9 (amended): the square `[(50,50),(250,50),(250,250),(50,250)]` clipped
against `xmin = 100, xmax = 200, ymin = 100, ymax = 200` is the sequence
`[(100,200),(100,100),(200,100),(200,200)]`: the vertices of the stated square
in the same cyclic order, starting from `(100,200)`. -/
theorem sutherlandHodgmanClip_square_rotated :
    sutherlandHodgmanClip [⟨50, 50⟩, ⟨250, 50⟩, ⟨250, 250⟩, ⟨50, 250⟩] 100 200 100 200 =
      [⟨100, 200⟩, ⟨100, 100⟩, ⟨200, 100⟩, ⟨200, 200⟩] ∧
    sutherlandHodgmanClip [⟨50, 50⟩, ⟨250, 50⟩, ⟨250, 250⟩, ⟨50, 250⟩] 100 200 100 200 =
      ([⟨100, 100⟩, ⟨200, 100⟩, ⟨200, 200⟩, ⟨100, 200⟩] : List Point).rotate 3 := by
  decide!

/-! ## The loop for any rectangle: states, codes and divisors -/

/-- The loop body keeps the codes in step with the endpoints, whatever the
rectangle. -/
theorem codesOk_clipIter (xmin xmax ymin ymax : ℚ) (s : ClipState)
    (hc : CodesOk xmin xmax ymin ymax s) :
    CodesOk xmin xmax ymin ymax (clipIter xmin xmax ymin ymax s) := by
  unfold clipIter
  dsimp only
  split_ifs
  · exact ⟨rfl, hc.2⟩
  · exact ⟨hc.1, rfl⟩

theorem codesOk_iterate (xmin xmax ymin ymax : ℚ) (s : ClipState)
    (hc : CodesOk xmin xmax ymin ymax s) (n : Nat) :
    CodesOk xmin xmax ymin ymax ((clipIter xmin xmax ymin ymax)^[n] s) := by
  induction n with
  | zero => exact hc
  | succ m ih =>
    rw [Function.iterate_succ_apply']
    exact codesOk_clipIter _ _ _ _ _ ih

theorem codesOk_loopState (x0 y0 x1 y1 xmin xmax ymin ymax : ℚ) (n : Nat) :
    CodesOk xmin xmax ymin ymax (loopState x0 y0 x1 y1 xmin xmax ymin ymax n) :=
  codesOk_iterate xmin xmax ymin ymax _ ⟨rfl, rfl⟩ n

/-- An endpoint with a TOP or BOTTOM bit differs in `y`, and one with a RIGHT
or LEFT bit differs in `x`, from an endpoint it shares no bit with. -/
theorem coordinates_differ (xs ys xo yo xmin xmax ymin ymax : ℚ)
    (hns : ¬ (computeOutCode xs ys xmin xmax ymin ymax &&&
      computeOutCode xo yo xmin xmax ymin ymax ≠ 0)) :
    ((computeOutCode xs ys xmin xmax ymin ymax &&& TOP ≠ 0 ∨
        computeOutCode xs ys xmin xmax ymin ymax &&& BOTTOM ≠ 0) → ys ≠ yo) ∧
    ((computeOutCode xs ys xmin xmax ymin ymax &&& RIGHT ≠ 0 ∨
        computeOutCode xs ys xmin xmax ymin ymax &&& LEFT ≠ 0) → xs ≠ xo) := by
  rw [code_and_ne_zero_iff] at hns
  rw [code_top_iff, code_bottom_iff, code_right_iff, code_left_iff]
  constructor
  · intro h heq
    subst heq
    rcases h with h | h
    · exact hns (Or.inr (Or.inr (Or.inr ⟨h, h⟩)))
    · exact hns (Or.inr (Or.inr (Or.inl ⟨h, h⟩)))
  · intro h heq
    subst heq
    rcases h with h | h
    · exact hns (Or.inr (Or.inl ⟨h, h⟩))
    · exact hns (Or.inl ⟨h, h⟩)

/-- In a state that passes neither loop test, with codes in step with the
endpoints: the selected code has one of the four bits, and the divisor of the
branch it selects is not zero. -/
theorem divisor_ne_zero_of_codesOk (xmin xmax ymin ymax : ℚ) (s : ClipState)
    (hc : CodesOk xmin xmax ymin ymax s)
    (hor : (s.code0 ||| s.code1) ≠ 0) (hand : (s.code0 &&& s.code1) = 0) :
    (selectOutCode s &&& TOP ≠ 0 ∨ selectOutCode s &&& BOTTOM ≠ 0 ∨
      selectOutCode s &&& RIGHT ≠ 0 ∨ selectOutCode s &&& LEFT ≠ 0) ∧
    ((selectOutCode s &&& TOP ≠ 0 ∨ selectOutCode s &&& BOTTOM ≠ 0) → s.y1 - s.y0 ≠ 0) ∧
    ((selectOutCode s &&& RIGHT ≠ 0 ∨ selectOutCode s &&& LEFT ≠ 0) → s.x1 - s.x0 ≠ 0) ∧
    divisor s (selectOutCode s) ≠ 0 := by
  obtain ⟨x0, y0, x1, y1, c0, c1⟩ := s
  obtain ⟨e0, e1⟩ := hc
  simp only at e0 e1 hor hand
  subst e0 e1
  have key : ∀ c : Nat,
      (c &&& TOP ≠ 0 ∨ c &&& BOTTOM ≠ 0 ∨ c &&& RIGHT ≠ 0 ∨ c &&& LEFT ≠ 0) →
      ((c &&& TOP ≠ 0 ∨ c &&& BOTTOM ≠ 0) → y1 - y0 ≠ 0) →
      ((c &&& RIGHT ≠ 0 ∨ c &&& LEFT ≠ 0) → x1 - x0 ≠ 0) →
      divisor ⟨x0, y0, x1, y1, computeOutCode x0 y0 xmin xmax ymin ymax,
        computeOutCode x1 y1 xmin xmax ymin ymax⟩ c ≠ 0 := by
    intro c hbit hy hx
    unfold divisor
    by_cases hT : c &&& TOP ≠ 0
    · rw [if_pos hT]
      exact hy (Or.inl hT)
    · rw [if_neg hT]
      by_cases hB : c &&& BOTTOM ≠ 0
      · rw [if_pos hB]
        exact hy (Or.inr hB)
      · rw [if_neg hB]
        rcases hbit with h | h | h | h
        · exact absurd h hT
        · exact absurd h hB
        · exact hx (Or.inl h)
        · exact hx (Or.inr h)
  by_cases hz : computeOutCode x0 y0 xmin xmax ymin ymax = 0
  · have h1 : computeOutCode x1 y1 xmin xmax ymin ymax ≠ 0 := by
      intro h
      apply hor
      rw [code_or_eq_zero_iff]
      exact ⟨hz, h⟩
    have hsel : selectOutCode ⟨x0, y0, x1, y1, computeOutCode x0 y0 xmin xmax ymin ymax,
        computeOutCode x1 y1 xmin xmax ymin ymax⟩ =
        computeOutCode x1 y1 xmin xmax ymin ymax := by
      simp [selectOutCode, hz]
    rw [hsel]
    have hns : ¬ (computeOutCode x1 y1 xmin xmax ymin ymax &&&
        computeOutCode x0 y0 xmin xmax ymin ymax ≠ 0) := by
      rw [Nat.land_comm]
      exact fun h => h hand
    obtain ⟨dy, dx⟩ := coordinates_differ x1 y1 x0 y0 xmin xmax ymin ymax hns
    have hbit : computeOutCode x1 y1 xmin xmax ymin ymax &&& TOP ≠ 0 ∨
        computeOutCode x1 y1 xmin xmax ymin ymax &&& BOTTOM ≠ 0 ∨
        computeOutCode x1 y1 xmin xmax ymin ymax &&& RIGHT ≠ 0 ∨
        computeOutCode x1 y1 xmin xmax ymin ymax &&& LEFT ≠ 0 := by
      by_contra hcon
      push_neg at hcon
      exact (code_bit_of_ne_zero _ _ _ _ _ _ h1 (by simpa using hcon.1)
        (by simpa using hcon.2.1) (by simpa using hcon.2.2.1)) hcon.2.2.2
    have hy : (computeOutCode x1 y1 xmin xmax ymin ymax &&& TOP ≠ 0 ∨
        computeOutCode x1 y1 xmin xmax ymin ymax &&& BOTTOM ≠ 0) → y1 - y0 ≠ 0 :=
      fun h => sub_ne_zero.mpr (dy h)
    have hx : (computeOutCode x1 y1 xmin xmax ymin ymax &&& RIGHT ≠ 0 ∨
        computeOutCode x1 y1 xmin xmax ymin ymax &&& LEFT ≠ 0) → x1 - x0 ≠ 0 :=
      fun h => sub_ne_zero.mpr (dx h)
    exact ⟨hbit, hy, hx, key _ hbit hy hx⟩
  · have hsel : selectOutCode ⟨x0, y0, x1, y1, computeOutCode x0 y0 xmin xmax ymin ymax,
        computeOutCode x1 y1 xmin xmax ymin ymax⟩ =
        computeOutCode x0 y0 xmin xmax ymin ymax := by
      simp [selectOutCode, hz]
    rw [hsel]
    have hns : ¬ (computeOutCode x0 y0 xmin xmax ymin ymax &&&
        computeOutCode x1 y1 xmin xmax ymin ymax ≠ 0) := fun h => h hand
    obtain ⟨dy, dx⟩ := coordinates_differ x0 y0 x1 y1 xmin xmax ymin ymax hns
    have hbit : computeOutCode x0 y0 xmin xmax ymin ymax &&& TOP ≠ 0 ∨
        computeOutCode x0 y0 xmin xmax ymin ymax &&& BOTTOM ≠ 0 ∨
        computeOutCode x0 y0 xmin xmax ymin ymax &&& RIGHT ≠ 0 ∨
        computeOutCode x0 y0 xmin xmax ymin ymax &&& LEFT ≠ 0 := by
      by_contra hcon
      push_neg at hcon
      exact (code_bit_of_ne_zero _ _ _ _ _ _ hz (by simpa using hcon.1)
        (by simpa using hcon.2.1) (by simpa using hcon.2.2.1)) hcon.2.2.2
    have hy : (computeOutCode x0 y0 xmin xmax ymin ymax &&& TOP ≠ 0 ∨
        computeOutCode x0 y0 xmin xmax ymin ymax &&& BOTTOM ≠ 0) → y1 - y0 ≠ 0 :=
      fun h => sub_ne_zero.mpr (Ne.symm (dy h))
    have hx : (computeOutCode x0 y0 xmin xmax ymin ymax &&& RIGHT ≠ 0 ∨
        computeOutCode x0 y0 xmin xmax ymin ymax &&& LEFT ≠ 0) → x1 - x0 ≠ 0 :=
      fun h => sub_ne_zero.mpr (Ne.symm (dx h))
    exact ⟨hbit, hy, hx, key _ hbit hy hx⟩

/-- A run of the loop that ends passes through the states `clipIter^[i] s`:
for some `j` below the fuel, none of the first `j` states passes a loop test,
the `j`-th does, and the result is read off it. -/
theorem clipLoop_trace (xmin xmax ymin ymax : ℚ) (fuel : Nat) :
    ∀ (k : Nat) (s : ClipState) (r : ClipResult),
      clipLoop xmin xmax ymin ymax fuel k s = some r →
      ∃ j : Nat, j < fuel ∧ r.iters = k + j ∧
        (∀ i : Nat, i < j →
          (((clipIter xmin xmax ymin ymax)^[i] s).code0 |||
            ((clipIter xmin xmax ymin ymax)^[i] s).code1) ≠ 0 ∧
          (((clipIter xmin xmax ymin ymax)^[i] s).code0 &&&
            ((clipIter xmin xmax ymin ymax)^[i] s).code1) = 0) ∧
        r.x0 = ((clipIter xmin xmax ymin ymax)^[j] s).x0 ∧
        r.y0 = ((clipIter xmin xmax ymin ymax)^[j] s).y0 ∧
        r.x1 = ((clipIter xmin xmax ymin ymax)^[j] s).x1 ∧
        r.y1 = ((clipIter xmin xmax ymin ymax)^[j] s).y1 ∧
        ((r.accept = true ∧
            (((clipIter xmin xmax ymin ymax)^[j] s).code0 |||
              ((clipIter xmin xmax ymin ymax)^[j] s).code1) = 0) ∨
         (r.accept = false ∧
            (((clipIter xmin xmax ymin ymax)^[j] s).code0 &&&
              ((clipIter xmin xmax ymin ymax)^[j] s).code1) ≠ 0)) := by
  induction fuel with
  | zero =>
    intro k s r h
    simp [clipLoop] at h
  | succ n ih =>
    intro k s r h
    by_cases h1 : (s.code0 ||| s.code1) = 0
    · rw [clipLoop_accept _ _ _ _ _ _ _ h1] at h
      have hr := (Option.some.inj h).symm
      subst hr
      exact ⟨0, Nat.succ_pos _, rfl, fun i hi => absurd hi (Nat.not_lt_zero i),
        rfl, rfl, rfl, rfl, Or.inl ⟨rfl, h1⟩⟩
    · by_cases h2 : (s.code0 &&& s.code1) = 0
      · rw [clipLoop_iter _ _ _ _ _ _ _ h1 h2] at h
        obtain ⟨j, hj, hit, hnon, ex0, ey0, ex1, ey1, hacc⟩ := ih _ _ _ h
        refine ⟨j + 1, by omega, by omega, ?_, ex0, ey0, ex1, ey1, hacc⟩
        intro i hi
        cases i with
        | zero => exact ⟨h1, h2⟩
        | succ m => exact hnon m (by omega)
      · rw [clipLoop_reject _ _ _ _ _ _ _ h1 h2] at h
        have hr := (Option.some.inj h).symm
        subst hr
        exact ⟨0, Nat.succ_pos _, rfl, fun i hi => absurd hi (Nat.not_lt_zero i),
          rfl, rfl, rfl, rfl, Or.inr ⟨rfl, h2⟩⟩

/-- C15: for every segment and every rectangle, in every loop iteration of
`cohenSutherlandClip` that computes an intersection (the state after `n`
iterations passes neither the accept nor the reject test), the selected code
has one of the four bits and the divisor of the formula evaluated is nonzero:
`y1 - y0 ≠ 0` when the selected code has TOP or BOTTOM set, `x1 - x0 ≠ 0` when
it has RIGHT or LEFT set, hence in the RIGHT and LEFT branches. -/
theorem cohenSutherlandClip_divisor_ne_zero (x0 y0 x1 y1 xmin xmax ymin ymax : ℚ) (n : Nat)
    (hor : ((loopState x0 y0 x1 y1 xmin xmax ymin ymax n).code0 |||
      (loopState x0 y0 x1 y1 xmin xmax ymin ymax n).code1) ≠ 0)
    (hand : ((loopState x0 y0 x1 y1 xmin xmax ymin ymax n).code0 &&&
      (loopState x0 y0 x1 y1 xmin xmax ymin ymax n).code1) = 0) :
    (selectOutCode (loopState x0 y0 x1 y1 xmin xmax ymin ymax n) &&& TOP ≠ 0 ∨
      selectOutCode (loopState x0 y0 x1 y1 xmin xmax ymin ymax n) &&& BOTTOM ≠ 0 ∨
      selectOutCode (loopState x0 y0 x1 y1 xmin xmax ymin ymax n) &&& RIGHT ≠ 0 ∨
      selectOutCode (loopState x0 y0 x1 y1 xmin xmax ymin ymax n) &&& LEFT ≠ 0) ∧
    ((selectOutCode (loopState x0 y0 x1 y1 xmin xmax ymin ymax n) &&& TOP ≠ 0 ∨
        selectOutCode (loopState x0 y0 x1 y1 xmin xmax ymin ymax n) &&& BOTTOM ≠ 0) →
      (loopState x0 y0 x1 y1 xmin xmax ymin ymax n).y1 -
        (loopState x0 y0 x1 y1 xmin xmax ymin ymax n).y0 ≠ 0) ∧
    ((selectOutCode (loopState x0 y0 x1 y1 xmin xmax ymin ymax n) &&& RIGHT ≠ 0 ∨
        selectOutCode (loopState x0 y0 x1 y1 xmin xmax ymin ymax n) &&& LEFT ≠ 0) →
      (loopState x0 y0 x1 y1 xmin xmax ymin ymax n).x1 -
        (loopState x0 y0 x1 y1 xmin xmax ymin ymax n).x0 ≠ 0) ∧
    divisor (loopState x0 y0 x1 y1 xmin xmax ymin ymax n)
      (selectOutCode (loopState x0 y0 x1 y1 xmin xmax ymin ymax n)) ≠ 0 :=
  divisor_ne_zero_of_codesOk xmin xmax ymin ymax _
    (codesOk_loopState x0 y0 x1 y1 xmin xmax ymin ymax n) hor hand

theorem cohenSutherlandClip_divisor_ne_zero_witness :
    ((loopState (-500) 500 1000 250 100 400 300 450 1).code0 |||
      (loopState (-500) 500 1000 250 100 400 300 450 1).code1) ≠ 0 ∧
    ((loopState (-500) 500 1000 250 100 400 300 450 1).code0 &&&
      (loopState (-500) 500 1000 250 100 400 300 450 1).code1) = 0 ∧
    divisor (loopState (-500) 500 1000 250 100 400 300 450 1)
      (selectOutCode (loopState (-500) 500 1000 250 100 400 300 450 1)) ≠ 0 :=
  have hor : ((loopState (-500) 500 1000 250 100 400 300 450 1).code0 |||
      (loopState (-500) 500 1000 250 100 400 300 450 1).code1) ≠ 0 := by decide!
  have hand : ((loopState (-500) 500 1000 250 100 400 300 450 1).code0 &&&
      (loopState (-500) 500 1000 250 100 400 300 450 1).code1) = 0 := by decide!
  ⟨hor, hand,
    (cohenSutherlandClip_divisor_ne_zero (-500) 500 1000 250 100 400 300 450 1 hor hand).2.2.2⟩

/-- The states `loopState … i` are the ones the loop works on: a run that returns after
`r.iters` replacements has tested and failed both loop tests in each of the
states `loopState … i`, `i < r.iters`. -/
theorem cohenSutherlandClip_iterations (fuel : Nat) (x0 y0 x1 y1 xmin xmax ymin ymax : ℚ)
    (r : ClipResult)
    (h : cohenSutherlandClip fuel x0 y0 x1 y1 xmin xmax ymin ymax = some r) :
    ∀ i : Nat, i < r.iters →
      ((loopState x0 y0 x1 y1 xmin xmax ymin ymax i).code0 |||
        (loopState x0 y0 x1 y1 xmin xmax ymin ymax i).code1) ≠ 0 ∧
      ((loopState x0 y0 x1 y1 xmin xmax ymin ymax i).code0 &&&
        (loopState x0 y0 x1 y1 xmin xmax ymin ymax i).code1) = 0 := by
  obtain ⟨j, _, hit, hnon, _⟩ := clipLoop_trace xmin xmax ymin ymax fuel 0 _ r h
  intro i hi
  exact hnon i (by omega)

/-! ## Degenerate inputs -/

/-- C12: for every rectangle and every point `p`, `cohenSutherlandClip` on the
zero-length segment `(p, p)` returns at the first loop test, without replacing
an endpoint (no intersection formula is evaluated); it returns accepted = true
if and only if `p` lies in the closed rectangle, and both endpoints are still
`p`. -/
theorem cohenSutherlandClip_point (fuel : Nat) (x y xmin xmax ymin ymax : ℚ) :
    ∃ r : ClipResult,
      cohenSutherlandClip (fuel + 1) x y x y xmin xmax ymin ymax = some r ∧
      r.iters = 0 ∧
      (r.accept = true ↔ xmin ≤ x ∧ x ≤ xmax ∧ ymin ≤ y ∧ y ≤ ymax) ∧
      r.x0 = x ∧ r.y0 = y ∧ r.x1 = x ∧ r.y1 = y := by
  unfold cohenSutherlandClip
  by_cases hz : computeOutCode x y xmin xmax ymin ymax = 0
  · have hor : ((initState x y x y xmin xmax ymin ymax).code0 |||
        (initState x y x y xmin xmax ymin ymax).code1) = 0 := by
      simp [initState, hz]
    rw [clipLoop_accept _ _ _ _ _ _ _ hor]
    refine ⟨_, rfl, rfl, ?_, rfl, rfl, rfl, rfl⟩
    simp only [true_iff]
    exact (code_eq_zero_iff x y xmin xmax ymin ymax).mp hz
  · have hand : ((initState x y x y xmin xmax ymin ymax).code0 &&&
        (initState x y x y xmin xmax ymin ymax).code1) ≠ 0 := by
      simp only [initState, Nat.and_self]
      exact hz
    have hor : ((initState x y x y xmin xmax ymin ymax).code0 |||
        (initState x y x y xmin xmax ymin ymax).code1) ≠ 0 := by
      simp only [initState, Nat.or_self]
      exact hz
    rw [clipLoop_reject _ _ _ _ _ _ _ hor hand]
    refine ⟨_, rfl, rfl, ?_, rfl, rfl, rfl, rfl⟩
    constructor
    · intro h
      exact Bool.noConfusion h
    · intro h
      exact absurd ((code_eq_zero_iff x y xmin xmax ymin ymax).mpr h) hz

/-- C11: for every vertex sequence and every invalid rectangle (`xmin > xmax`
or `ymin > ymax`), `sutherlandHodgmanClip` returns the empty sequence. -/
theorem sutherlandHodgmanClip_invalid_rectangle (poly : List Point)
    (xmin xmax ymin ymax : ℚ) (h : xmin > xmax ∨ ymin > ymax) :
    sutherlandHodgmanClip poly xmin xmax ymin ymax = [] :=
  sutherlandHodgmanClip_invalid_nil poly xmin xmax ymin ymax h

theorem sutherlandHodgmanClip_invalid_rectangle_witness :
    ((200 : ℚ) > 100 ∨ (100 : ℚ) > 200) ∧
    sutherlandHodgmanClip [⟨50, 50⟩, ⟨250, 50⟩, ⟨250, 250⟩, ⟨50, 250⟩] 200 100 100 200 = [] :=
  ⟨Or.inl (by norm_num),
    sutherlandHodgmanClip_invalid_rectangle [⟨50, 50⟩, ⟨250, 50⟩, ⟨250, 250⟩, ⟨50, 250⟩]
      200 100 100 200 (Or.inl (by norm_num))⟩

/-! ## Region codes: the whole picture -/

/-- C14: for every point and rectangle, `computeOutCode` sets exactly these
bits: LEFT iff `x < xmin`; RIGHT iff not `x < xmin` and `x > xmax`; BOTTOM iff
`y < ymin`; TOP iff not `y < ymin` and `y > ymax`; no bit besides these four.
LEFT is never set together with RIGHT, nor BOTTOM with TOP, and the result is
INSIDE (0) exactly when `xmin ≤ x ≤ xmax` and `ymin ≤ y ≤ ymax`. -/
theorem computeOutCode_bits (x y xmin xmax ymin ymax : ℚ) :
    (computeOutCode x y xmin xmax ymin ymax &&& LEFT ≠ 0 ↔ x < xmin) ∧
    (computeOutCode x y xmin xmax ymin ymax &&& RIGHT ≠ 0 ↔ ¬ x < xmin ∧ x > xmax) ∧
    (computeOutCode x y xmin xmax ymin ymax &&& BOTTOM ≠ 0 ↔ y < ymin) ∧
    (computeOutCode x y xmin xmax ymin ymax &&& TOP ≠ 0 ↔ ¬ y < ymin ∧ y > ymax) ∧
    computeOutCode x y xmin xmax ymin ymax &&& (LEFT ||| RIGHT ||| BOTTOM ||| TOP) =
      computeOutCode x y xmin xmax ymin ymax ∧
    ¬ (computeOutCode x y xmin xmax ymin ymax &&& LEFT ≠ 0 ∧
        computeOutCode x y xmin xmax ymin ymax &&& RIGHT ≠ 0) ∧
    ¬ (computeOutCode x y xmin xmax ymin ymax &&& BOTTOM ≠ 0 ∧
        computeOutCode x y xmin xmax ymin ymax &&& TOP ≠ 0) ∧
    (computeOutCode x y xmin xmax ymin ymax = INSIDE ↔
      xmin ≤ x ∧ x ≤ xmax ∧ ymin ≤ y ∧ y ≤ ymax) := by
  refine ⟨code_left_iff _ _ _ _ _ _, code_right_iff _ _ _ _ _ _, code_bottom_iff _ _ _ _ _ _,
    code_top_iff _ _ _ _ _ _, ?_, ?_, ?_, code_eq_zero_iff _ _ _ _ _ _⟩
  · unfold computeOutCode
    simp only [INSIDE, LEFT, RIGHT, BOTTOM, TOP]
    split_ifs <;> decide
  · rw [code_left_iff, code_right_iff]
    intro h
    exact h.2.1 h.1
  · rw [code_bottom_iff, code_top_iff]
    intro h
    exact h.2.1 h.1

/-! ## The board rectangle: symmetry, bits and sub-segments -/

/-- The closed segment is the same set of points in either direction. -/
theorem segmentMeetsRect_swap (x0 y0 x1 y1 xmin xmax ymin ymax : ℚ)
    (h : segmentMeetsRect x0 y0 x1 y1 xmin xmax ymin ymax) :
    segmentMeetsRect x1 y1 x0 y0 xmin xmax ymin ymax := by
  obtain ⟨t, ht0, ht1, hin⟩ := h
  refine ⟨1 - t, by linarith, by linarith, ?_⟩
  have ex : x1 + (1 - t) * (x0 - x1) = x0 + t * (x1 - x0) := by ring
  have ey : y1 + (1 - t) * (y0 - y1) = y0 + t * (y1 - y0) := by ring
  rw [ex, ey]
  exact hin

/-- Against the board rectangle the clipper returns, and accepts exactly the
segments that meet the rectangle. -/
theorem board_accept_iff_meets (x0 y0 x1 y1 : ℚ) :
    ∃ r : ClipResult,
      cohenSutherlandClip 5 x0 y0 x1 y1 boardXmin boardXmax boardYmin boardYmax = some r ∧
      (r.accept = true ↔
        segmentMeetsRect x0 y0 x1 y1 boardXmin boardXmax boardYmin boardYmax) := by
  have hrun := clipLoop_board_run
    (fun s => segmentMeetsRect s.x0 s.y0 s.x1 s.y1 boardXmin boardXmax boardYmin boardYmax ↔
      segmentMeetsRect x0 y0 x1 y1 boardXmin boardXmax boardYmin boardYmax)
    (fun s hc hor hand hinv => (clipIter_board_meets s hc hor hand).trans hinv)
    4 0 (initState x0 y0 x1 y1 boardXmin boardXmax boardYmin boardYmax) ⟨rfl, rfl⟩
    (clipMeasure_le_four _ _ _ _ _) Iff.rfl
  obtain ⟨s', j, _, hc, hinv, hres⟩ := hrun
  rcases hres with ⟨hz, hres⟩ | ⟨hand, hres⟩
  · refine ⟨_, hres, ?_⟩
    simp only [true_iff]
    apply hinv.mp
    rw [hc.1, hc.2, code_or_eq_zero_iff, code_eq_zero_iff] at hz
    refine ⟨0, le_refl _, by norm_num, ?_⟩
    have ex : s'.x0 + 0 * (s'.x1 - s'.x0) = s'.x0 := by ring
    have ey : s'.y0 + 0 * (s'.y1 - s'.y0) = s'.y0 := by ring
    rw [ex, ey]
    exact hz.1
  · refine ⟨_, hres, ?_⟩
    constructor
    · intro h
      exact Bool.noConfusion h
    · intro h
      rw [hc.1, hc.2] at hand
      exact absurd (hinv.mpr h) (not_meets_of_shared_bit _ _ _ _ _ _ _ _ hand)

/-- C13: against the board rectangle (`xmin = 100, xmax = 400, ymin = 300,
ymax = 450`), for every segment, the clipper returns for both orders of the
endpoints, and with the same accepted flag. -/
theorem cohenSutherlandClip_board_swap (x0 y0 x1 y1 : ℚ) :
    ∃ r r' : ClipResult,
      cohenSutherlandClip 5 x0 y0 x1 y1 100 400 300 450 = some r ∧
      cohenSutherlandClip 5 x1 y1 x0 y0 100 400 300 450 = some r' ∧
      r.accept = r'.accept := by
  obtain ⟨r, hr, hacc⟩ := board_accept_iff_meets x0 y0 x1 y1
  obtain ⟨r', hr', hacc'⟩ := board_accept_iff_meets x1 y1 x0 y0
  refine ⟨r, r', hr, hr', ?_⟩
  rw [Bool.eq_iff_iff, hacc, hacc']
  exact ⟨segmentMeetsRect_swap _ _ _ _ _ _ _ _, segmentMeetsRect_swap _ _ _ _ _ _ _ _⟩

/-- C17: against the board rectangle, for every segment, the clipper returns,
and when it returns accepted = true the returned endpoints are
`p0 + s (p1 - p0)` and `p0 + t (p1 - p0)` for some `0 ≤ s ≤ t ≤ 1`. -/
theorem cohenSutherlandClip_board_subsegment (x0 y0 x1 y1 : ℚ) :
    ∃ r : ClipResult,
      cohenSutherlandClip 5 x0 y0 x1 y1 100 400 300 450 = some r ∧
      (r.accept = true →
        ∃ s t : ℚ, 0 ≤ s ∧ s ≤ t ∧ t ≤ 1 ∧
          r.x0 = x0 + s * (x1 - x0) ∧ r.y0 = y0 + s * (y1 - y0) ∧
          r.x1 = x0 + t * (x1 - x0) ∧ r.y1 = y0 + t * (y1 - y0)) := by
  have hrun := clipLoop_board_run
    (fun st => ∃ a b : ℚ, 0 ≤ a ∧ a ≤ b ∧ b ≤ 1 ∧
      st.x0 = x0 + a * (x1 - x0) ∧ st.y0 = y0 + a * (y1 - y0) ∧
      st.x1 = x0 + b * (x1 - x0) ∧ st.y1 = y0 + b * (y1 - y0))
    (by
      intro st hc hor hand hinv
      obtain ⟨a, b, ha, hab, hb, e0, e1, e2, e3⟩ := hinv
      obtain ⟨_, _, τ, h0, h1, h⟩ := clipIter_board_step st hc hor hand
      have hτ := mul_nonneg h0 (sub_nonneg.mpr hab)
      have hτ' := mul_nonneg (sub_nonneg.mpr h1) (sub_nonneg.mpr hab)
      rcases h with ⟨f0, f1, f2, f3, _⟩ | ⟨f0, f1, f2, f3, _⟩
      · refine ⟨a + τ * (b - a), b, by linarith, by nlinarith, hb, ?_, ?_, ?_, ?_⟩
        · rw [f0, e0, e2]; ring
        · rw [f1, e1, e3]; ring
        · rw [f2, e2]
        · rw [f3, e3]
      · refine ⟨a, a + τ * (b - a), ha, by linarith, by nlinarith, ?_, ?_, ?_, ?_⟩
        · rw [f0, e0]
        · rw [f1, e1]
        · rw [f2, e0, e2]; ring
        · rw [f3, e1, e3]; ring)
    4 0 (initState x0 y0 x1 y1 boardXmin boardXmax boardYmin boardYmax) ⟨rfl, rfl⟩
    (clipMeasure_le_four _ _ _ _ _)
    ⟨0, 1, le_refl _, by norm_num, le_refl _, by simp [initState], by simp [initState],
      by simp [initState], by simp [initState]⟩
  obtain ⟨s', j, _, _, hinv, hres⟩ := hrun
  obtain ⟨a, b, ha, hab, hb, e0, e1, e2, e3⟩ := hinv
  rcases hres with ⟨_, hres⟩ | ⟨_, hres⟩
  · exact ⟨_, hres, fun _ => ⟨a, b, ha, hab, hb, e0, e1, e2, e3⟩⟩
  · exact ⟨_, hres, fun _ => ⟨a, b, ha, hab, hb, e0, e1, e2, e3⟩⟩

/-! ## The board rectangle: what a replacement does to the bits -/

theorem between_self (a b : ℚ) : (a ≤ a ∧ a ≤ b) ∨ (b ≤ a ∧ a ≤ a) := by
  rcases le_total a b with h | h
  · exact Or.inl ⟨le_refl _, h⟩
  · exact Or.inr ⟨h, le_refl _⟩

/-- A point between two endpoints that shares no bit with the second one has
no bit that the first one lacks. -/
theorem no_bit_added (xs ys xo yo xn yn xmin xmax ymin ymax : ℚ)
    (hx : xmin ≤ xmax) (hy : ymin ≤ ymax)
    (hbx : (xs ≤ xn ∧ xn ≤ xo) ∨ (xo ≤ xn ∧ xn ≤ xs))
    (hby : (ys ≤ yn ∧ yn ≤ yo) ∨ (yo ≤ yn ∧ yn ≤ ys))
    (hns : ¬ (computeOutCode xn yn xmin xmax ymin ymax &&&
      computeOutCode xo yo xmin xmax ymin ymax ≠ 0)) :
    ∀ b ∈ [LEFT, RIGHT, BOTTOM, TOP],
      computeOutCode xn yn xmin xmax ymin ymax &&& b ≠ 0 →
      computeOutCode xs ys xmin xmax ymin ymax &&& b ≠ 0 := by
  rw [code_and_ne_zero_iff] at hns
  intro b hb
  simp only [List.mem_cons, List.mem_singleton, List.not_mem_nil, or_false] at hb
  rcases hb with rfl | rfl | rfl | rfl
  · rw [code_left_iff, code_left_iff]
    intro hn
    by_contra hs
    push_neg at hs
    rcases hbx with h | h
    · linarith
    · exact hns (Or.inl ⟨hn, by linarith⟩)
  · rw [code_right_iff, code_right_iff]
    intro hn
    by_contra hs
    have hs' : xs ≤ xmax := by
      by_contra hc
      push_neg at hc
      exact hs ⟨by linarith, hc⟩
    rcases hbx with h | h
    · have ho : xo > xmax := by linarith [hn.2]
      exact hns (Or.inr (Or.inl ⟨hn, ⟨by linarith, ho⟩⟩))
    · linarith [hn.2]
  · rw [code_bottom_iff, code_bottom_iff]
    intro hn
    by_contra hs
    push_neg at hs
    rcases hby with h | h
    · linarith
    · exact hns (Or.inr (Or.inr (Or.inl ⟨hn, by linarith⟩)))
  · rw [code_top_iff, code_top_iff]
    intro hn
    by_contra hs
    have hs' : ys ≤ ymax := by
      by_contra hc
      push_neg at hc
      exact hs ⟨by linarith, hc⟩
    rcases hby with h | h
    · have ho : yo > ymax := by linarith [hn.2]
      exact hns (Or.inr (Or.inr (Or.inr ⟨hn, ⟨by linarith, ho⟩⟩)))
    · linarith [hn.2]

/-- A point that violates fewer axes than another lacks one of its bits. -/
theorem some_bit_cleared (xs ys xn yn xmin xmax ymin ymax : ℚ)
    (hx : xmin ≤ xmax) (hy : ymin ≤ ymax)
    (hv : violations xn yn xmin xmax ymin ymax < violations xs ys xmin xmax ymin ymax) :
    ∃ b ∈ [LEFT, RIGHT, BOTTOM, TOP],
      computeOutCode xs ys xmin xmax ymin ymax &&& b ≠ 0 ∧
      computeOutCode xn yn xmin xmax ymin ymax &&& b = 0 := by
  by_contra hcon
  push_neg at hcon
  have hL := hcon LEFT (by simp)
  have hR := hcon RIGHT (by simp)
  have hB := hcon BOTTOM (by simp)
  have hT := hcon TOP (by simp)
  rw [code_left_iff, code_left_iff] at hL
  rw [code_right_iff, code_right_iff] at hR
  rw [code_bottom_iff, code_bottom_iff] at hB
  rw [code_top_iff, code_top_iff] at hT
  have vx : (if xs < xmin ∨ xs > xmax then 1 else 0) ≤
      (if xn < xmin ∨ xn > xmax then 1 else 0) := by
    by_cases h : xs < xmin ∨ xs > xmax
    · have hn : xn < xmin ∨ xn > xmax := by
        rcases h with h | h
        · exact Or.inl (hL h)
        · exact Or.inr (hR ⟨by linarith, h⟩).2
      rw [if_pos h, if_pos hn]
    · rw [if_neg h]
      exact Nat.zero_le _
  have vy : (if ys < ymin ∨ ys > ymax then 1 else 0) ≤
      (if yn < ymin ∨ yn > ymax then 1 else 0) := by
    by_cases h : ys < ymin ∨ ys > ymax
    · have hn : yn < ymin ∨ yn > ymax := by
        rcases h with h | h
        · exact Or.inl (hB h)
        · exact Or.inr (hT ⟨by linarith, h⟩).2
      rw [if_pos h, if_pos hn]
    · rw [if_neg h]
      exact Nat.zero_le _
  unfold violations at hv
  omega

/-- The two codes compared by the next loop test are the replaced endpoint's
new code and the other endpoint's code. -/
theorem replaced_and_kept (xmin xmax ymin ymax : ℚ) (s : ClipState) :
    replacedCode xmin xmax ymin ymax s &&& keptCode s =
      (clipIter xmin xmax ymin ymax s).code0 &&& (clipIter xmin xmax ymin ymax s).code1 := by
  unfold replacedCode keptCode clipIter
  dsimp only
  split_ifs
  · rfl
  · exact Nat.land_comm _ _

/-- One replacement against the board rectangle, seen on the bits: the new
code of the replaced endpoint either shares a bit with the other endpoint's
code, or is the old code with at least one bit cleared and none added. -/
theorem clipIter_board_bits (s : ClipState)
    (hc : CodesOk boardXmin boardXmax boardYmin boardYmax s)
    (hor : (s.code0 ||| s.code1) ≠ 0) (hand : (s.code0 &&& s.code1) = 0) :
    ClearsBit (selectOutCode s) (replacedCode boardXmin boardXmax boardYmin boardYmax s) ∨
      replacedCode boardXmin boardXmax boardYmin boardYmax s &&& keptCode s ≠ 0 := by
  by_cases hsh : replacedCode boardXmin boardXmax boardYmin boardYmax s &&& keptCode s ≠ 0
  · exact Or.inr hsh
  · left
    obtain ⟨hc', hprog, τ, h0, h1, hform⟩ := clipIter_board_step s hc hor hand
    have hlt : clipMeasure boardXmin boardXmax boardYmin boardYmax
        (clipIter boardXmin boardXmax boardYmin boardYmax s) <
        clipMeasure boardXmin boardXmax boardYmin boardYmax s := by
      rcases hprog with h | h
      · rw [replaced_and_kept] at hsh
        exact absurd h hsh
      · exact h
    obtain ⟨x0, y0, x1, y1, c0, c1⟩ := s
    obtain ⟨e0, e1⟩ := hc
    simp only at e0 e1 hor hand
    subst e0 e1
    by_cases hz : computeOutCode x0 y0 boardXmin boardXmax boardYmin boardYmax = 0
    · have hne1 : computeOutCode x1 y1 boardXmin boardXmax boardYmin boardYmax ≠ 0 := by
        intro h
        apply hor
        rw [code_or_eq_zero_iff]
        exact ⟨hz, h⟩
      have hit := clipIter_second2 boardXmin boardXmax boardYmin boardYmax x0 y0 x1 y1 _ _ hz hne1
      generalize intersection _ _ = p at hit
      rw [hit] at hlt hform
      have hsel : selectOutCode ⟨x0, y0, x1, y1,
          computeOutCode x0 y0 boardXmin boardXmax boardYmin boardYmax,
          computeOutCode x1 y1 boardXmin boardXmax boardYmin boardYmax⟩ =
          computeOutCode x1 y1 boardXmin boardXmax boardYmin boardYmax := by
        simp [selectOutCode, hz]
      have hnsel : ¬ (computeOutCode x1 y1 boardXmin boardXmax boardYmin boardYmax =
          computeOutCode x0 y0 boardXmin boardXmax boardYmin boardYmax) := by
        rw [hz]
        exact hne1
      have hrep : replacedCode boardXmin boardXmax boardYmin boardYmax ⟨x0, y0, x1, y1,
          computeOutCode x0 y0 boardXmin boardXmax boardYmin boardYmax,
          computeOutCode x1 y1 boardXmin boardXmax boardYmin boardYmax⟩ =
          computeOutCode p.1 p.2 boardXmin boardXmax boardYmin boardYmax := by
        unfold replacedCode
        rw [hsel, hit]
        exact if_neg hnsel
      have hkept : keptCode ⟨x0, y0, x1, y1,
          computeOutCode x0 y0 boardXmin boardXmax boardYmin boardYmax,
          computeOutCode x1 y1 boardXmin boardXmax boardYmin boardYmax⟩ =
          computeOutCode x0 y0 boardXmin boardXmax boardYmin boardYmax := by
        unfold keptCode
        rw [hsel]
        exact if_neg hnsel
      rw [hrep, hkept] at hsh
      rw [hsel, hrep]
      have hbt : ((x1 ≤ p.1 ∧ p.1 ≤ x0) ∨ (x0 ≤ p.1 ∧ p.1 ≤ x1)) ∧
          ((y1 ≤ p.2 ∧ p.2 ≤ y0) ∨ (y0 ≤ p.2 ∧ p.2 ≤ y1)) := by
        rcases hform with ⟨_, _, f2, f3, _⟩ | ⟨_, _, f2, f3, _⟩
        · simp only at f2 f3
          rw [f2, f3]
          exact ⟨between_self x1 x0, between_self y1 y0⟩
        · simp only at f2 f3
          rw [f2, f3]
          exact ⟨(between_of_param x0 x1 τ h0 h1).symm, (between_of_param y0 y1 τ h0 h1).symm⟩
      have hv : violations p.1 p.2 boardXmin boardXmax boardYmin boardYmax <
          violations x1 y1 boardXmin boardXmax boardYmin boardYmax := by
        simp only [clipMeasure] at hlt
        omega
      exact ⟨no_bit_added x1 y1 x0 y0 p.1 p.2 _ _ _ _ board_x_valid board_y_valid
          hbt.1 hbt.2 hsh,
        some_bit_cleared x1 y1 p.1 p.2 _ _ _ _ board_x_valid board_y_valid hv⟩
    · have hit := clipIter_first boardXmin boardXmax boardYmin boardYmax x0 y0 x1 y1 _
        (computeOutCode x1 y1 boardXmin boardXmax boardYmin boardYmax) hz
      generalize intersection _ _ = p at hit
      rw [hit] at hlt hform
      have hsel : selectOutCode ⟨x0, y0, x1, y1,
          computeOutCode x0 y0 boardXmin boardXmax boardYmin boardYmax,
          computeOutCode x1 y1 boardXmin boardXmax boardYmin boardYmax⟩ =
          computeOutCode x0 y0 boardXmin boardXmax boardYmin boardYmax := by
        simp [selectOutCode, hz]
      have hrep : replacedCode boardXmin boardXmax boardYmin boardYmax ⟨x0, y0, x1, y1,
          computeOutCode x0 y0 boardXmin boardXmax boardYmin boardYmax,
          computeOutCode x1 y1 boardXmin boardXmax boardYmin boardYmax⟩ =
          computeOutCode p.1 p.2 boardXmin boardXmax boardYmin boardYmax := by
        unfold replacedCode
        rw [hsel, hit]
        exact if_pos rfl
      have hkept : keptCode ⟨x0, y0, x1, y1,
          computeOutCode x0 y0 boardXmin boardXmax boardYmin boardYmax,
          computeOutCode x1 y1 boardXmin boardXmax boardYmin boardYmax⟩ =
          computeOutCode x1 y1 boardXmin boardXmax boardYmin boardYmax := by
        unfold keptCode
        rw [hsel]
        exact if_pos rfl
      rw [hrep, hkept] at hsh
      rw [hsel, hrep]
      have hbt : ((x0 ≤ p.1 ∧ p.1 ≤ x1) ∨ (x1 ≤ p.1 ∧ p.1 ≤ x0)) ∧
          ((y0 ≤ p.2 ∧ p.2 ≤ y1) ∨ (y1 ≤ p.2 ∧ p.2 ≤ y0)) := by
        rcases hform with ⟨f0, f1, _, _, _⟩ | ⟨f0, f1, _, _, _⟩
        · simp only at f0 f1
          rw [f0, f1]
          exact ⟨between_of_param x0 x1 τ h0 h1, between_of_param y0 y1 τ h0 h1⟩
        · simp only at f0 f1
          rw [f0, f1]
          exact ⟨between_self x0 x1, between_self y0 y1⟩
      have hv : violations p.1 p.2 boardXmin boardXmax boardYmin boardYmax <
          violations x0 y0 boardXmin boardXmax boardYmin boardYmax := by
        simp only [clipMeasure] at hlt
        omega
      exact ⟨no_bit_added x0 y0 x1 y1 p.1 p.2 _ _ _ _ board_x_valid board_y_valid
          hbt.1 hbt.2 hsh,
        some_bit_cleared x0 y0 p.1 p.2 _ _ _ _ board_x_valid board_y_valid hv⟩

/-- Against the board rectangle every run ends within four replacements, and
each replacement either clears a bit of the replaced endpoint's code without
adding one, or gives it a bit of the other endpoint's code, in which case the
next test rejects. -/
theorem board_run_bits (x0 y0 x1 y1 : ℚ) :
    ∃ r : ClipResult,
      cohenSutherlandClip 5 x0 y0 x1 y1 boardXmin boardXmax boardYmin boardYmax = some r ∧
      r.iters ≤ 4 ∧
      ∀ i : Nat, i < r.iters →
        ClearsBit
            (selectOutCode (loopState x0 y0 x1 y1 boardXmin boardXmax boardYmin boardYmax i))
            (replacedCode boardXmin boardXmax boardYmin boardYmax
              (loopState x0 y0 x1 y1 boardXmin boardXmax boardYmin boardYmax i)) ∨
          (replacedCode boardXmin boardXmax boardYmin boardYmax
              (loopState x0 y0 x1 y1 boardXmin boardXmax boardYmin boardYmax i) &&&
            keptCode (loopState x0 y0 x1 y1 boardXmin boardXmax boardYmin boardYmax i) ≠ 0 ∧
            r.accept = false ∧ r.iters = i + 1) := by
  have hrun := clipLoop_board_run (fun _ => True) (fun _ _ _ _ _ => trivial)
    4 0 (initState x0 y0 x1 y1 boardXmin boardXmax boardYmin boardYmax) ⟨rfl, rfl⟩
    (clipMeasure_le_four _ _ _ _ _) trivial
  obtain ⟨s', j, hj, _, _, hres⟩ := hrun
  have hex : ∃ r : ClipResult,
      cohenSutherlandClip 5 x0 y0 x1 y1 boardXmin boardXmax boardYmin boardYmax = some r ∧
      r.iters ≤ 4 := by
    rcases hres with ⟨_, hres⟩ | ⟨_, hres⟩
    · exact ⟨_, hres, by simpa using hj⟩
    · exact ⟨_, hres, by simpa using hj⟩
  obtain ⟨r, hr, hle⟩ := hex
  refine ⟨r, hr, hle, ?_⟩
  obtain ⟨m, _, hit, hnon, _, _, _, _, hacc⟩ :=
    clipLoop_trace boardXmin boardXmax boardYmin boardYmax 5 0 _ r hr
  intro i hi
  have him : i < m := by omega
  have hci := codesOk_loopState x0 y0 x1 y1 boardXmin boardXmax boardYmin boardYmax i
  obtain ⟨hor, hand⟩ := hnon i him
  rcases clipIter_board_bits _ hci hor hand with h | h
  · exact Or.inl h
  · right
    refine ⟨h, ?_, ?_⟩
    · have hnext : ((loopState x0 y0 x1 y1 boardXmin boardXmax boardYmin boardYmax (i + 1)).code0
          &&& (loopState x0 y0 x1 y1 boardXmin boardXmax boardYmin boardYmax (i + 1)).code1)
          ≠ 0 := by
        unfold loopState
        rw [Function.iterate_succ_apply', ← replaced_and_kept]
        exact h
      have hm : m = i + 1 := by
        by_contra hne
        have hlt : i + 1 < m := by omega
        exact hnext (hnon (i + 1) hlt).2
      subst hm
      rcases hacc with ⟨_, hz⟩ | ⟨hf, _⟩
      · exact absurd hz (or_ne_zero_of_and_ne_zero _ _ _ _ _
          (codesOk_loopState x0 y0 x1 y1 boardXmin boardXmax boardYmin boardYmax (i + 1)) hnext)
      · exact hf
    · have hnext : ((loopState x0 y0 x1 y1 boardXmin boardXmax boardYmin boardYmax (i + 1)).code0
          &&& (loopState x0 y0 x1 y1 boardXmin boardXmax boardYmin boardYmax (i + 1)).code1)
          ≠ 0 := by
        unfold loopState
        rw [Function.iterate_succ_apply', ← replaced_and_kept]
        exact h
      have hm : m = i + 1 := by
        by_contra hne
        have hlt : i + 1 < m := by omega
        exact hnext (hnon (i + 1) hlt).2
      omega

/-- C16: against the board rectangle (`xmin = 100, xmax = 400, ymin = 300,
ymax = 450`), for every segment, the loop of `cohenSutherlandClip` reaches
accept or reject after at most 4 iterations that replace an endpoint; each
replacement either clears a bit of the replaced endpoint's code without adding
one, or gives it a bit that the other endpoint's code also has, and then the
next test rejects. -/
theorem cohenSutherlandClip_board_four_iterations (x0 y0 x1 y1 : ℚ) :
    ∃ r : ClipResult,
      cohenSutherlandClip 5 x0 y0 x1 y1 100 400 300 450 = some r ∧
      r.iters ≤ 4 ∧
      ∀ i : Nat, i < r.iters →
        ClearsBit (selectOutCode (loopState x0 y0 x1 y1 100 400 300 450 i))
            (replacedCode 100 400 300 450 (loopState x0 y0 x1 y1 100 400 300 450 i)) ∨
          (replacedCode 100 400 300 450 (loopState x0 y0 x1 y1 100 400 300 450 i) &&&
            keptCode (loopState x0 y0 x1 y1 100 400 300 450 i) ≠ 0 ∧
            r.accept = false ∧ r.iters = i + 1) :=
  board_run_bits x0 y0 x1 y1

/-- Both kinds of replacement occur: in the run of `(-500,500)-(1000,250)` the
first replacement clears TOP from the code TOP|LEFT, and in the run of
`(250,1000)-(-1000,350)` the replacement gives the first endpoint the bit LEFT
of the second, after which the run is rejected. -/
theorem board_replacements_examples :
    ClearsBit (selectOutCode (loopState (-500) 500 1000 250 100 400 300 450 0))
      (replacedCode 100 400 300 450 (loopState (-500) 500 1000 250 100 400 300 450 0)) ∧
    selectOutCode (loopState (-500) 500 1000 250 100 400 300 450 0) = 9 ∧
    replacedCode 100 400 300 450 (loopState (-500) 500 1000 250 100 400 300 450 0) = 1 ∧
    replacedCode 100 400 300 450 (loopState 250 1000 (-1000) 350 100 400 300 450 0) &&&
      keptCode (loopState 250 1000 (-1000) 350 100 400 300 450 0) ≠ 0 ∧
    cohenSutherlandClip 5 250 1000 (-1000) 350 100 400 300 450 =
      some ⟨false, -10500 / 13, 450, -1000, 350, 1⟩ := by
  decide!

end Clipping
